import Mathlib

/-!
Verification development for the BabelSim hex-lattice engine (`app.py`).

The engine maintains a `size × size` array of 6-bit door masks on a
toroidal flat-topped hex grid with odd-q offset coordinates, and offers
pattern resets, a degree-preserving random edge swap, and a cycle
(`loop`) extraction.  This file is a shallow embedding of that code:

* masks are `Nat` (the code uses `uint8`; bit `d` is direction `d`),
* the cell array `cells_array` is a function `Nat → Nat → Nat`
  (only indices below `size` are ever read or written by in-range
  operations),
* Python's `%` on an `int` with positive modulus agrees with `Int.emod`,
  which is how the wrap `((n % size) + size) % size` is rendered,
* the precomputed `neighbor_table` holds exactly the values
  `neighbor size c r d` below, so lookups are modelled by that function;
  NumPy accepts indices in `[-size, size)` (negative indices wrap), so
  the raw-index lookup `get_neighbor_coords` is modelled as an `Option`,
* fallible operations (NumPy `IndexError` / `ValueError`) return
  `Option`/`Except`; `none`/`error` marks an escaping exception.
-/

namespace BabelSim

/-- `EVEN_COL_DIRS` from `app.py`: (Δcol, Δrow) per direction index
0=N, 1=NE, 2=SE, 3=S, 4=SW, 5=NW for cells in even columns. -/
def evenColDirs : Fin 6 → Int × Int
  | 0 => (0, -1)
  | 1 => (1, -1)
  | 2 => (1, 0)
  | 3 => (0, 1)
  | 4 => (-1, 0)
  | 5 => (-1, -1)

/-- `ODD_COL_DIRS` from `app.py`. -/
def oddColDirs : Fin 6 → Int × Int
  | 0 => (0, -1)
  | 1 => (1, 0)
  | 2 => (1, 1)
  | 3 => (0, 1)
  | 4 => (-1, 1)
  | 5 => (-1, 0)

/-- The opposite direction `(dir_idx + 3) % 6`, used throughout `app.py`. -/
def opp (d : Fin 6) : Fin 6 := d + 3

/-- The toroidal wrap `((n % size) + size) % size` (Python `%` on a
positive modulus is Euclidean, i.e. `Int.emod`). -/
def wrap (size : Nat) (n : Int) : Nat := (((n % (size : Int)) + size) % size).toNat

/-- One entry of the precomputed `neighbor_table` built by
`_init_neighbor_table`: offsets chosen by column parity, then wrapped. -/
def neighbor (size : Nat) (c r : Nat) (d : Fin 6) : Nat × Nat :=
  let o := if c % 2 = 0 then evenColDirs d else oddColDirs d
  (wrap size ((c : Int) + o.1), wrap size ((r : Int) + o.2))

/-- The lattice: `size` plus the `cells_array` door-mask array. -/
structure Grid where
  size : Nat
  mask : Nat → Nat → Nat

/-- Array-backend bit test `cells_array[c, r] & (1 << dir_idx)` for
in-range coordinates (`_has_connection_array` after its wrap). -/
def hasConn (g : Grid) (c r : Nat) (d : Fin 6) : Bool :=
  (g.mask c r).testBit (d : Nat)

/-- Array-backend door extraction for in-range coordinates: the set bits
of the mask in ascending direction order (`_get_cell_doors_array` after
its wrap, also the inline extraction loop of `_find_loops_numba`). -/
def doorsAt (g : Grid) (c r : Nat) : List (Fin 6) :=
  (List.finRange 6).filter fun d => (g.mask c r).testBit (d : Nat)

/-- Overwrite one cell of `cells_array`. -/
def updMask (g : Grid) (c r : Nat) (m : Nat) : Grid :=
  ⟨g.size, fun c' r' => if c' = c ∧ r' = r then m else g.mask c' r'⟩

/-- `_add_connection_array` restricted to in-range coordinates (the wrap
is then the identity and the `neighbor_table` lookup is total): set bit
`d` at `(c, r)`, then bit `opp d` at the tabled neighbor. -/
def addConnAt (g : Grid) (c r : Nat) (d : Fin 6) : Grid :=
  let g1 := updMask g c r (g.mask c r ||| (1 <<< (d : Nat)))
  let n := neighbor g.size c r d
  updMask g1 n.1 n.2 (g1.mask n.1 n.2 ||| (1 <<< ((opp d) : Nat)))

/-- `_remove_connection_array` restricted to in-range coordinates: clear
bit `d` at `(c, r)` via `& (0xFF ^ (1 << d))`, then bit `opp d` at the
tabled neighbor. -/
def removeConnAt (g : Grid) (c r : Nat) (d : Fin 6) : Grid :=
  let g1 := updMask g c r (g.mask c r &&& (255 ^^^ (1 <<< (d : Nat))))
  let n := neighbor g.size c r d
  updMask g1 n.1 n.2 (g1.mask n.1 n.2 &&& (255 ^^^ (1 <<< ((opp d) : Nat))))

/-- `_init_vertical`: every cell gets doors `{N, S}` (bits 0 and 3). -/
def initVertical (size : Nat) : Grid :=
  ⟨size, fun _ _ => (1 <<< 0) ||| (1 <<< 3)⟩

/-- `_init_diagonal_1`: every cell gets doors `{NE, SW}` (bits 1 and 4). -/
def initDiagonal1 (size : Nat) : Grid :=
  ⟨size, fun _ _ => (1 <<< 1) ||| (1 <<< 4)⟩

/-- `_init_diagonal_2`: every cell gets doors `{SE, NW}` (bits 2 and 5). -/
def initDiagonal2 (size : Nat) : Grid :=
  ⟨size, fun _ _ => (1 <<< 2) ||| (1 <<< 5)⟩

/-- `_init_concentric` (the zig-zag seeder): for odd `size` the last
column gets `{SE, NW}`; otherwise even columns get `{NE, NW}` and odd
columns `{SE, SW}`. -/
def initConcentric (size : Nat) : Grid :=
  ⟨size, fun c _ =>
    if size % 2 ≠ 0 ∧ c = size - 1 then (1 <<< 2) ||| (1 <<< 5)
    else if c % 2 = 0 then (1 <<< 1) ||| (1 <<< 5)
    else (1 <<< 2) ||| (1 <<< 4)⟩

/-- `reset_to_organized`: dispatch on the pattern string, any unknown
string (including `"zigzag"`) falls back to `_init_vertical`. -/
def resetToOrganized (size : Nat) (pattern : String) : Grid :=
  if pattern = "vertical" then initVertical size
  else if pattern = "diagonal_1" then initDiagonal1 size
  else if pattern = "diagonal_2" then initDiagonal2 size
  else if pattern = "concentric" then initConcentric size
  else initVertical size

/-- `get_direction`: scan the six directions in ascending order and
return the first whose tabled neighbor is `(c2, r2)`, else `None`
(the code's `-1`). -/
def getDirection (size : Nat) (c1 r1 c2 r2 : Nat) : Option (Fin 6) :=
  (List.finRange 6).find? fun i => decide (neighbor size c1 r1 i = (c2, r2))

/-- `perform_swap_vectorized` for sampled coordinates in `[0, size)`
(`scramble` draws them with `np.random.randint(0, size)`, so the wraps
inside `get_cell_doors`/`has_connection` are the identity and the raw
`neighbor_table` lookups are in range).  `none` is a `False` return. -/
def performSwap (g : Grid) (uc ur xc xr i0 i1 : Nat) : Option Grid :=
  let uDoors := doorsAt g uc ur
  if uDoors.isEmpty then none else
  let duv := uDoors.getD (i0 % uDoors.length) 0
  let v := neighbor g.size uc ur duv
  let xDoors := doorsAt g xc xr
  if xDoors.isEmpty then none else
  let dxy := xDoors.getD (i1 % xDoors.length) 0
  let y := neighbor g.size xc xr dxy
  let u : Nat × Nat := (uc, ur)
  let x : Nat × Nat := (xc, xr)
  if u = v ∨ u = x ∨ u = y ∨ v = x ∨ v = y ∨ x = y then none else
  let pairA : Option Grid :=
    match getDirection g.size uc ur xc xr, getDirection g.size v.1 v.2 y.1 y.2 with
    | some dux, some dvy =>
      if ¬ hasConn g uc ur dux ∧ ¬ hasConn g v.1 v.2 dvy then
        some (addConnAt (addConnAt (removeConnAt (removeConnAt g uc ur duv) xc xr dxy)
          uc ur dux) v.1 v.2 dvy)
      else none
    | _, _ => none
  match pairA with
  | some g' => some g'
  | none =>
    match getDirection g.size uc ur y.1 y.2, getDirection g.size v.1 v.2 xc xr with
    | some duy, some dvx =>
      if ¬ hasConn g uc ur duy ∧ ¬ hasConn g v.1 v.2 dvx then
        some (addConnAt (addConnAt (removeConnAt (removeConnAt g uc ur duv) xc xr dxy)
          uc ur duy) v.1 v.2 dvx)
      else none
    | _, _ => none

/-- Lattice states reachable by `reset_to_organized` followed by any
sequence of successful `perform_swap_vectorized` calls with sampled cell
coordinates in `[0, size)` and arbitrary door indices. -/
inductive Reachable (size : Nat) : Grid → Prop
  | reset (pattern : String) : Reachable size (resetToOrganized size pattern)
  | swap {g g' : Grid} (uc ur xc xr i0 i1 : Nat)
      (hu : uc < size) (hur : ur < size) (hx : xc < size) (hxr : xr < size) :
      Reachable size g → performSwap g uc ur xc xr i0 i1 = some g' →
      Reachable size g'

/-- Every in-range cell has exactly two doors set (the degree-2
invariant `(I-degree-2)`). -/
def Deg2 (g : Grid) : Prop :=
  ∀ c < g.size, ∀ r < g.size, (doorsAt g c r).length = 2

/-- Door masks use only the six direction bits. -/
def MaskOk (g : Grid) : Prop :=
  ∀ c < g.size, ∀ r < g.size, g.mask c r < 64

/-- The symmetry invariant `(I-symmetry)`: a door and its mate at the
tabled neighbor agree. -/
def Symm (g : Grid) : Prop :=
  ∀ c < g.size, ∀ r < g.size, ∀ d : Fin 6,
    hasConn g c r d =
      hasConn g (neighbor g.size c r d).1 (neighbor g.size c r d).2 (opp d)

/-! ### Arithmetic facts about the toroidal wrap -/

theorem wrap_lt (size : Nat) (h : 0 < size) (n : Int) : wrap size n < size := by
  have hs : (0 : Int) < (size : Int) := by exact_mod_cast h
  have h1 : 0 ≤ (n % (size : Int) + size) % size := Int.emod_nonneg _ (by omega)
  have h2 : (n % (size : Int) + size) % size < size := Int.emod_lt_of_pos _ hs
  unfold wrap
  omega

theorem wrap_coe (size : Nat) (c : Nat) (hc : c < size) : wrap size c = c := by
  have h1 : ((c : Int) % size) = c :=
    Int.emod_eq_of_lt (by positivity) (by exact_mod_cast hc)
  unfold wrap
  rw [h1, show ((c : Int) + size) = c + size * 1 by ring, Int.add_mul_emod_self_left, h1]
  exact Int.toNat_natCast c

theorem coe_wrap (size : Nat) (h : 0 < size) (n : Int) :
    ((wrap size n : Nat) : Int) = (n % (size : Int) + size) % size := by
  have hs : (0 : Int) < (size : Int) := by exact_mod_cast h
  have h1 : 0 ≤ (n % (size : Int) + size) % size := Int.emod_nonneg _ (by omega)
  unfold wrap
  exact Int.toNat_of_nonneg h1

theorem wrap_emod (size : Nat) (h : 0 < size) (n : Int) :
    ((wrap size n : Nat) : Int) % size = n % size := by
  rw [coe_wrap size h n, Int.emod_emod_of_dvd _ dvd_rfl,
    show (n % (size : Int) + size) = n % size + size * 1 by ring,
    Int.add_mul_emod_self_left, Int.emod_emod_of_dvd _ dvd_rfl]

theorem wrap_congr (size : Nat) (a b : Int)
    (hab : a % (size : Int) = b % size) : wrap size a = wrap size b := by
  unfold wrap
  rw [hab]

theorem wrap_add_int (size : Nat) (h : 0 < size) (a b : Int) :
    wrap size ((wrap size a : Nat) + b) = wrap size (a + b) := by
  refine wrap_congr size _ _ ?_
  rw [← Int.emod_add_emod _ _ b, wrap_emod size h a, Int.emod_add_emod]

theorem wrap_even_iff (size : Nat) (he : size % 2 = 0) (h : 0 < size) (a : Int) :
    (wrap size a) % 2 = 0 ↔ a % 2 = 0 := by
  have hdvd : (2 : Int) ∣ (size : Int) := by
    have : (2 : Nat) ∣ size := Nat.dvd_of_mod_eq_zero he
    exact_mod_cast this
  have hs2 : (size : Int) % 2 = 0 := by
    rcases hdvd with ⟨k, hk⟩
    rw [hk, Int.mul_emod_right]
  have key : ((wrap size a : Nat) : Int) % 2 = a % 2 := by
    rw [coe_wrap size h a, Int.emod_emod_of_dvd _ hdvd, Int.add_emod,
      Int.emod_emod_of_dvd _ hdvd, hs2, add_zero,
      Int.emod_emod_of_dvd _ (dvd_refl (2 : Int))]
  omega

theorem wrap_roundtrip_aux (size : Nat) (h : 0 < size) (base : Nat) (hb : base < size)
    (b1 b2 : Int) (hsum : b1 + b2 = 0) :
    wrap size (((wrap size ((base : Int) + b1) : Nat) : Int) + b2) = base := by
  rw [wrap_add_int size h]
  rw [show ((base : Int) + b1 + b2) = base by omega]
  exact wrap_coe size base hb

/-! ### Neighbor geometry -/

theorem neighbor_fst_lt (size : Nat) (h : 0 < size) (c r : Nat) (d : Fin 6) :
    (neighbor size c r d).1 < size := wrap_lt size h _

theorem neighbor_snd_lt (size : Nat) (h : 0 < size) (c r : Nat) (d : Fin 6) :
    (neighbor size c r d).2 < size := wrap_lt size h _

/-- The direction offsets and the opposite direction's offsets cancel,
where the opposite offsets are read from the parity table of the
unwrapped target column. -/
theorem offsets_cancel : ∀ (k : Fin 2) (d : Fin 6),
    (if (k : Nat) = 0 then evenColDirs d else oddColDirs d).1 +
      (if (((k : Nat) : Int) +
            (if (k : Nat) = 0 then evenColDirs d else oddColDirs d).1) % 2 = 0
        then evenColDirs (opp d) else oddColDirs (opp d)).1 = 0 ∧
    (if (k : Nat) = 0 then evenColDirs d else oddColDirs d).2 +
      (if (((k : Nat) : Int) +
            (if (k : Nat) = 0 then evenColDirs d else oddColDirs d).1) % 2 = 0
        then evenColDirs (opp d) else oddColDirs (opp d)).2 = 0 := by decide

/-- On an even-size torus, a step in direction `d` followed by a step in
direction `opp d` always returns to the starting cell. -/
theorem neighbor_roundtrip (size : Nat) (he : size % 2 = 0) (h : 0 < size)
    (c r : Nat) (hc : c < size) (hr : r < size) (d : Fin 6) :
    neighbor size (neighbor size c r d).1 (neighbor size c r d).2 (opp d) = (c, r) := by
  have hk := offsets_cancel ⟨c % 2, Nat.mod_lt c (by norm_num)⟩ d
  rw [show (((⟨c % 2, Nat.mod_lt c (by norm_num)⟩ : Fin 2) : Nat)) = c % 2 from rfl] at hk
  set o : Int × Int := if c % 2 = 0 then evenColDirs d else oddColDirs d with ho
  obtain ⟨hk1, hk2⟩ := hk
  have hn1 : (neighbor size c r d).1 = wrap size ((c : Int) + o.1) := rfl
  have hn2 : (neighbor size c r d).2 = wrap size ((r : Int) + o.2) := rfl
  have hcond : ((wrap size ((c : Int) + o.1)) % 2 = 0) ↔
      ((((c % 2 : Nat) : Int) + o.1) % 2 = 0) := by
    rw [wrap_even_iff size he h]
    omega
  have ho' : (if (wrap size ((c : Int) + o.1)) % 2 = 0
        then evenColDirs (opp d) else oddColDirs (opp d))
      = (if (((c % 2 : Nat) : Int) + o.1) % 2 = 0
        then evenColDirs (opp d) else oddColDirs (opp d)) :=
    if_congr hcond rfl rfl
  rw [show neighbor size (neighbor size c r d).1 (neighbor size c r d).2 (opp d)
      = (wrap size ((((neighbor size c r d).1 : Nat) : Int) +
           (if (neighbor size c r d).1 % 2 = 0
             then evenColDirs (opp d) else oddColDirs (opp d)).1),
         wrap size ((((neighbor size c r d).2 : Nat) : Int) +
           (if (neighbor size c r d).1 % 2 = 0
             then evenColDirs (opp d) else oddColDirs (opp d)).2)) from rfl]
  rw [hn1, hn2, ho']
  exact Prod.ext (wrap_roundtrip_aux size h c hc _ _ hk1)
    (wrap_roundtrip_aux size h r hr _ _ hk2)

/-! ### Claim C2: torus round-trip -/

/-- C2, counterexample: at the odd size 5 the wrap changes column parity,
so stepping NE from cell `(4, 2)` and then SW does not return to the
start: `neighbor(neighbor(4,2,NE), SW) = (4,1) ≠ (4,2)`, although
`5 ∈ [5, 200]` and `(4, 2)` is in range.  The claim is false as stated. -/
theorem c2_roundtrip_counterexample :
    5 ≤ 5 ∧ 5 ≤ 200 ∧ 4 < 5 ∧ 2 < 5 ∧ opp 1 = (1 + 3) % 6 ∧
      neighbor 5 (neighbor 5 4 2 1).1 (neighbor 5 4 2 1).2 (opp 1) ≠ (4, 2) := by
  decide

/-- C2, amended to even lattice sizes: for every even size in `[5, 200]`,
every in-range cell `(c, r)` and every direction `d`, stepping to the
tabled neighbor and back with the opposite direction `(d + 3) % 6`
returns the starting cell. -/
theorem c2_roundtrip_even (size : Nat) (heven : size % 2 = 0)
    (h5 : 5 ≤ size) (h200 : size ≤ 200) (c r : Nat) (hc : c < size) (hr : r < size)
    (d : Fin 6) :
    neighbor size (neighbor size c r d).1 (neighbor size c r d).2 (opp d) = (c, r) :=
  neighbor_roundtrip size heven (by omega) c r hc hr d

/-- Witness for C2 at size 6, cell `(5, 4)`, direction NE. -/
theorem c2_roundtrip_even_witness :
    6 % 2 = 0 ∧ 5 ≤ 6 ∧ 6 ≤ 200 ∧ 5 < 6 ∧ 4 < 6 ∧
      neighbor 6 (neighbor 6 5 4 1).1 (neighbor 6 5 4 1).2 (opp 1) = (5, 4) :=
  ⟨rfl, by decide, by decide, by decide, by decide,
    c2_roundtrip_even 6 rfl (by decide) (by decide) 5 4 (by decide) (by decide) 1⟩

/-! ### Claim C5: the zig-zag pattern seeder -/

/-- C5, counterexample: the code has no `"zigzag"` pattern string — that
name hits the fallback branch of `reset_to_organized` and seeds the
vertical `{N, S}` pattern.  Cell `(0, 0)` (an even column) gets doors
`[0, 3]`, not the claimed `{NE, NW} = [1, 5]`. -/
theorem c5_zigzag_counterexample :
    doorsAt (resetToOrganized 5 "zigzag") 0 0 = [0, 3] ∧
      ([0, 3] : List (Fin 6)) ≠ [1, 5] := by
  constructor
  · rfl
  · decide

/-- C5, amended: the zig-zag seeder is selected by the pattern string
`"concentric"` (not `"zigzag"`).  With it, for every size in `[5, 200]`,
cells of the last column get exactly `{SE, NW} = [2, 5]` when the size is
odd; otherwise even columns get exactly `{NE, NW} = [1, 5]` and odd
columns exactly `{SE, SW} = [2, 4]`. -/
theorem c5_concentric_pattern (size : Nat) (h5 : 5 ≤ size) (h200 : size ≤ 200)
    (c r : Nat) (hc : c < size) (hr : r < size) :
    doorsAt (resetToOrganized size "concentric") c r =
      if size % 2 ≠ 0 ∧ c = size - 1 then [2, 5]
      else if c % 2 = 0 then [1, 5]
      else [2, 4] := by
  have hco : resetToOrganized size "concentric" = initConcentric size := rfl
  rw [hco]
  by_cases h1 : size % 2 ≠ 0 ∧ c = size - 1
  · rw [if_pos h1]
    simp only [doorsAt, initConcentric, if_pos h1]
    decide
  · rw [if_neg h1]
    by_cases h2 : c % 2 = 0
    · rw [if_pos h2]
      simp only [doorsAt, initConcentric, if_neg h1, if_pos h2]
      decide
    · rw [if_neg h2]
      simp only [doorsAt, initConcentric, if_neg h1, if_neg h2]
      decide

/-- Witness for C5 at size 5: the last column (odd size) of the
`"concentric"` pattern gets `[2, 5]`. -/
theorem c5_concentric_pattern_witness :
    5 ≤ 5 ∧ 5 ≤ 200 ∧ 4 < 5 ∧ 0 < 5 ∧
      doorsAt (resetToOrganized 5 "concentric") 4 0 =
        (if 5 % 2 ≠ 0 ∧ 4 = 5 - 1 then [2, 5]
          else if 4 % 2 = 0 then [1, 5]
          else [2, 4]) :=
  ⟨by decide, by decide, by decide, by decide,
    c5_concentric_pattern 5 (by decide) (by decide) 4 0 (by decide) (by decide)⟩

/-! ### The `scramble` batch call

`scramble` pre-generates `max_attempts = steps * 20` random rows with
`np.random.randint`; a negative `steps` therefore hands NumPy a negative
array dimension, which raises `ValueError` before any attempt runs
(`Except.error`).  The pre-generated randomness is modelled as two
oracle streams `rc` (cell coordinates) and `rd` (door indices), indexed
by the attempt number. -/

/-- The attempt loop of `scramble`: runs while budget remains and fewer
than `steps` successes are recorded.  Returns the final grid, the
success count, and the number of attempts performed. -/
def scrambleGo (steps : Nat) (rc : Nat → Nat × Nat × Nat × Nat)
    (rd : Nat → Nat × Nat) : Nat → Nat → Grid → Nat → Grid × Nat × Nat
  | 0, _, g, swaps => (g, swaps, 0)
  | budget + 1, idx, g, swaps =>
    if steps ≤ swaps then (g, swaps, 0)
    else
      let cs := rc idx
      let ds := rd idx
      match performSwap g cs.1 cs.2.1 cs.2.2.1 cs.2.2.2 ds.1 ds.2 with
      | some g' =>
        let rest := scrambleGo steps rc rd budget (idx + 1) g' (swaps + 1)
        (rest.1, rest.2.1, rest.2.2 + 1)
      | none =>
        let rest := scrambleGo steps rc rd budget (idx + 1) g swaps
        (rest.1, rest.2.1, rest.2.2 + 1)

/-- `HexGrid.scramble`: `max_attempts = steps * 20`; for negative
`steps` the `np.random.randint(0, size, size=(max_attempts, 4))` call
raises (`Except.error`), otherwise the attempt loop runs and the swap
count is returned. -/
def scramble (g : Grid) (steps : Int) (rc : Nat → Nat × Nat × Nat × Nat)
    (rd : Nat → Nat × Nat) : Except Unit (Grid × Nat) :=
  if steps < 0 then Except.error ()
  else
    let res := scrambleGo steps.toNat rc rd (steps.toNat * 20) 0 g 0
    Except.ok (res.1, res.2.1)

theorem scrambleGo_bounds (steps : Nat) (rc : Nat → Nat × Nat × Nat × Nat)
    (rd : Nat → Nat × Nat) (budget : Nat) :
    ∀ idx g swaps, swaps ≤ steps →
      (scrambleGo steps rc rd budget idx g swaps).2.1 ≤ steps ∧
      (scrambleGo steps rc rd budget idx g swaps).2.2 ≤ budget ∧
      ((scrambleGo steps rc rd budget idx g swaps).2.1 < steps →
        (scrambleGo steps rc rd budget idx g swaps).2.2 = budget) := by
  induction budget with
  | zero =>
    intro idx g swaps hsw
    exact ⟨hsw, Nat.le_refl 0, fun _ => rfl⟩
  | succ b ih =>
    intro idx g swaps hsw
    by_cases hstop : steps ≤ swaps
    · simp only [scrambleGo, if_pos hstop]
      exact ⟨hsw, Nat.zero_le _, fun hlt => absurd hstop (by omega)⟩
    · simp only [scrambleGo, if_neg hstop]
      cases hsw' : performSwap g (rc idx).1 (rc idx).2.1 (rc idx).2.2.1 (rc idx).2.2.2
          (rd idx).1 (rd idx).2 with
      | some g' =>
        have h := ih (idx + 1) g' (swaps + 1) (by omega)
        simp only
        exact ⟨h.1, by omega, fun hlt => by rw [h.2.2 hlt]⟩
      | none =>
        have h := ih (idx + 1) g swaps (by omega)
        simp only
        exact ⟨h.1, by omega, fun hlt => by rw [h.2.2 hlt]⟩

/-! ### Claim C7: scramble bound -/

/-- C7: for every `steps ≥ 0` (a natural number) and any randomness, the
attempt loop performs at most `20 * steps` swap attempts, exhausts the
budget whenever fewer than `steps` successes were recorded (i.e. it
stops early only once `steps` successes are in), and `scramble` returns
the success count, an integer in `[0, steps]`. -/
theorem c7_scramble_bound (g : Grid) (steps : Nat)
    (rc : Nat → Nat × Nat × Nat × Nat) (rd : Nat → Nat × Nat) :
    (scrambleGo steps rc rd (steps * 20) 0 g 0).2.1 ≤ steps ∧
    (scrambleGo steps rc rd (steps * 20) 0 g 0).2.2 ≤ 20 * steps ∧
    ((scrambleGo steps rc rd (steps * 20) 0 g 0).2.1 < steps →
      (scrambleGo steps rc rd (steps * 20) 0 g 0).2.2 = 20 * steps) ∧
    scramble g (steps : Int) rc rd =
      Except.ok ((scrambleGo steps rc rd (steps * 20) 0 g 0).1,
        (scrambleGo steps rc rd (steps * 20) 0 g 0).2.1) := by
  have h := scrambleGo_bounds steps rc rd (steps * 20) 0 g 0 (Nat.zero_le _)
  refine ⟨h.1, by omega, by omega, ?_⟩
  unfold scramble
  rw [if_neg (by omega)]
  simp only [Int.toNat_natCast]

/-! ### Claim C6: negative steps -/

/-- C6, counterexample: `scramble(-1)` is not coerced to 0 — it computes
`max_attempts = -20` and `np.random.randint` raises `ValueError` on the
negative array dimension, so an exception escapes instead of returning
the integer 0. -/
theorem c6_negative_steps_counterexample :
    scramble (resetToOrganized 5 "vertical") (-1)
      (fun _ => (0, 0, 0, 0)) (fun _ => (0, 0)) = Except.error () := rfl

/-- C6, amended: a negative `steps` raises (`ValueError` from the
negative array dimension) instead of being coerced to 0; for every
`steps ≥ 0` no exception escapes, every failed attempt is silent, and
the only reported outcome is the count of successful swaps, which is at
most `steps`. -/
theorem c6_negative_steps_raises (g : Grid) (steps : Int) (h : 0 ≤ steps)
    (rc : Nat → Nat × Nat × Nat × Nat) (rd : Nat → Nat × Nat) :
    scramble g steps rc rd =
      Except.ok ((scrambleGo steps.toNat rc rd (steps.toNat * 20) 0 g 0).1,
        (scrambleGo steps.toNat rc rd (steps.toNat * 20) 0 g 0).2.1) ∧
    (scrambleGo steps.toNat rc rd (steps.toNat * 20) 0 g 0).2.1 ≤ steps.toNat ∧
    ∀ steps' : Int, steps' < 0 → scramble g steps' rc rd = Except.error () := by
  refine ⟨?_, ?_, ?_⟩
  · unfold scramble
    rw [if_neg (by omega)]
  · exact (scrambleGo_bounds steps.toNat rc rd (steps.toNat * 20) 0 g 0 (Nat.zero_le _)).1
  · intro steps' hneg
    unfold scramble
    rw [if_pos hneg]

/-- Witness for C6 at `steps = 1` on the size-5 vertical lattice. -/
theorem c6_negative_steps_raises_witness :
    0 ≤ (1 : Int) ∧
      (scramble (resetToOrganized 5 "vertical") 1
          (fun _ => (0, 0, 0, 0)) (fun _ => (0, 0)) =
        Except.ok ((scrambleGo (1 : Int).toNat (fun _ => (0, 0, 0, 0)) (fun _ => (0, 0))
            ((1 : Int).toNat * 20) 0 (resetToOrganized 5 "vertical") 0).1,
          (scrambleGo (1 : Int).toNat (fun _ => (0, 0, 0, 0)) (fun _ => (0, 0))
            ((1 : Int).toNat * 20) 0 (resetToOrganized 5 "vertical") 0).2.1) ∧
      (scrambleGo (1 : Int).toNat (fun _ => (0, 0, 0, 0)) (fun _ => (0, 0))
          ((1 : Int).toNat * 20) 0 (resetToOrganized 5 "vertical") 0).2.1 ≤ (1 : Int).toNat ∧
      ∀ steps' : Int, steps' < 0 →
        scramble (resetToOrganized 5 "vertical") steps'
          (fun _ => (0, 0, 0, 0)) (fun _ => (0, 0)) = Except.error ()) :=
  ⟨by decide,
    c6_negative_steps_raises (resetToOrganized 5 "vertical") 1 (by decide)
      (fun _ => (0, 0, 0, 0)) (fun _ => (0, 0))⟩

/-! ### The serializer `to_dict` -/

/-- JSON values appearing in a cell entry of the wire dump. -/
inductive JVal where
  | num (n : Nat)
  | arr (l : List Nat)
deriving DecidableEq

/-- The dictionary key `f"{c},{r}"`. -/
def cellKey (c r : Nat) : String := toString c ++ "," ++ toString r

/-- `HexGrid.to_dict` (array branch): for each cell in iteration order
(`c` outer, `r` inner) one entry keyed `"c,r"` whose object carries the
fields `"q"`, `"r"` and `"doors"` (the ascending set-bit list). -/
def toDict (g : Grid) : List (String × List (String × JVal)) :=
  ((List.range g.size).map fun c =>
    (List.range g.size).map fun r =>
      (cellKey c r,
        [("q", JVal.num c), ("r", JVal.num r),
          ("doors", JVal.arr ((doorsAt g c r).map Fin.val))])).flatten

theorem join_rows_length {α : Type} (n m : Nat) (f : Nat → Nat → α) :
    (((List.range n).map fun c => (List.range m).map fun r => f c r).flatten).length
      = n * m := by
  rw [List.length_flatten, List.map_map]
  have h1 : (List.length ∘ fun c => (List.range m).map fun r => f c r)
      = fun _ => m := by
    funext c
    simp
  rw [h1, List.map_const', List.length_range, List.sum_replicate, smul_eq_mul]

theorem join_rows_getElem {α : Type} (n m : Nat) (f : Nat → Nat → α) (c r : Nat)
    (hc : c < n) (hr : r < m) :
    (((List.range n).map fun c => (List.range m).map fun r => f c r).flatten)[c * m + r]?
      = some (f c r) := by
  induction n with
  | zero => omega
  | succ k ih =>
    rw [List.range_succ, List.map_append, List.flatten_append]
    by_cases hck : c < k
    · rw [List.getElem?_append_left (by rw [join_rows_length]; nlinarith)]
      exact ih hck
    · have hc' : c = k := by omega
      subst hc'
      rw [List.getElem?_append_right (by rw [join_rows_length]; nlinarith)]
      rw [join_rows_length]
      have : c * m + r - c * m = r := by omega
      rw [this]
      simp [List.getElem?_map, List.getElem?_range hr]

/-! ### Claim C9: wire shape of `cells` -/

/-- C9, counterexample: the cell objects of `to_dict` do not carry
fields named `col` and `row` — the first entry (cell `(0,0)` of the
size-5 vertical lattice) is keyed `"0,0"` and its object has fields
`"q"`, `"r"`, `"doors"`; looking up `"col"` or `"row"` finds nothing. -/
theorem c9_to_dict_counterexample :
    (toDict (resetToOrganized 5 "vertical")).head? =
      some ("0,0",
        [("q", JVal.num 0), ("r", JVal.num 0), ("doors", JVal.arr [0, 3])]) ∧
    List.lookup "col"
      [("q", JVal.num 0), ("r", JVal.num 0), ("doors", JVal.arr [0, 3])] = none ∧
    List.lookup "row"
      [("q", JVal.num 0), ("r", JVal.num 0), ("doors", JVal.arr [0, 3])] = none := by
  refine ⟨?_, by decide, by decide⟩
  rfl

/-- C9, amended: `to_dict` has exactly one entry per cell; the entry of
cell `(c, r)` sits at flat index `c * size + r`, is keyed by the string
`"c,r"`, and its object carries the integer fields `q` and `r` (the
legacy names, not `col`/`row`) equal to the key's coordinates plus a
`doors` field that is an ascending list of direction indices, each
below 6. -/
theorem c9_to_dict_shape (g : Grid) (c r : Nat) (hc : c < g.size) (hr : r < g.size) :
    (toDict g).length = g.size * g.size ∧
    (toDict g)[c * g.size + r]? =
      some (cellKey c r,
        [("q", JVal.num c), ("r", JVal.num r),
          ("doors", JVal.arr ((doorsAt g c r).map Fin.val))]) ∧
    ((doorsAt g c r).map Fin.val).Pairwise (· < ·) ∧
    ∀ x ∈ (doorsAt g c r).map Fin.val, x < 6 := by
  refine ⟨join_rows_length g.size g.size _, join_rows_getElem g.size g.size _ c r hc hr,
    ?_, ?_⟩
  · refine List.Pairwise.map Fin.val (fun a b hab => hab) ?_
    exact (List.pairwise_lt_finRange 6).filter _
  · intro x hx
    rcases List.mem_map.mp hx with ⟨d, _, hdx⟩
    exact hdx ▸ d.isLt

/-- Witness for C9 at cell `(2, 3)` of the size-5 vertical lattice. -/
theorem c9_to_dict_shape_witness :
    2 < (resetToOrganized 5 "vertical").size ∧
    3 < (resetToOrganized 5 "vertical").size ∧
    ((toDict (resetToOrganized 5 "vertical")).length =
        (resetToOrganized 5 "vertical").size * (resetToOrganized 5 "vertical").size ∧
      (toDict (resetToOrganized 5 "vertical"))[2 * (resetToOrganized 5 "vertical").size + 3]? =
        some (cellKey 2 3,
          [("q", JVal.num 2), ("r", JVal.num 3),
            ("doors", JVal.arr ((doorsAt (resetToOrganized 5 "vertical") 2 3).map Fin.val))]) ∧
      ((doorsAt (resetToOrganized 5 "vertical") 2 3).map Fin.val).Pairwise (· < ·) ∧
      ∀ x ∈ (doorsAt (resetToOrganized 5 "vertical") 2 3).map Fin.val, x < 6) :=
  ⟨by decide, by decide,
    c9_to_dict_shape (resetToOrganized 5 "vertical") 2 3 (by decide) (by decide)⟩

/-! ### Raw-coordinate cell-store operations (Claim C10) -/

/-- `get_neighbor_coords`: a raw `neighbor_table[c, r, d]` lookup.
NumPy accepts axis indices in `[-size, size)` (a negative index `i`
reads entry `size + i`, which is exactly `wrap` of `i`); any other index
raises `IndexError` (`none`). -/
def getNeighborCoords (g : Grid) (c r : Int) (d : Fin 6) : Option (Nat × Nat) :=
  if -(g.size : Int) ≤ c ∧ c < g.size ∧ -(g.size : Int) ≤ r ∧ r < g.size then
    some (neighbor g.size (wrap g.size c) (wrap g.size r) d)
  else none

/-- `_has_connection_array` on raw integer coordinates: wraps, then bit
test; total. -/
def hasConnection (g : Grid) (c r : Int) (d : Fin 6) : Bool :=
  hasConn g (wrap g.size c) (wrap g.size r) d

/-- `_get_cell_doors_array` on raw integer coordinates: wraps, then
extracts set bits; total. -/
def getCellDoors (g : Grid) (c r : Int) : List (Fin 6) :=
  doorsAt g (wrap g.size c) (wrap g.size r)

/-- `_add_connection_array` on raw integer coordinates: the direct bit
is set at the wrapped cell, but the symmetric write looks up
`neighbor_table` with the RAW `(c, r)`, so the operation raises
(`none`) for coordinates outside `[-size, size)` (with the direct bit
already mutated when the exception escapes). -/
def addConnectionArray (g : Grid) (c r : Int) (d : Fin 6) : Option Grid :=
  match getNeighborCoords g c r d with
  | some _ => some (addConnAt g (wrap g.size c) (wrap g.size r) d)
  | none => none

/-- `_remove_connection_array` on raw integer coordinates; see
`addConnectionArray`. -/
def removeConnectionArray (g : Grid) (c r : Int) (d : Fin 6) : Option Grid :=
  match getNeighborCoords g c r d with
  | some _ => some (removeConnAt g (wrap g.size c) (wrap g.size r) d)
  | none => none

theorem wrap_idem (size : Nat) (h : 0 < size) (n : Int) :
    wrap size ((wrap size n : Nat) : Int) = wrap size n := by
  refine wrap_congr size _ _ (wrap_emod size h n)

/-- C10, counterexample: `add_connection(5, 0, 0)` on a size-5 lattice
raises `IndexError` (the symmetric write indexes `neighbor_table` with
the raw column 5), so the error branch is reachable and the operation
does fail for an out-of-range integer input.  `remove_connection`
likewise. -/
theorem c10_out_of_range_counterexample :
    addConnectionArray (resetToOrganized 5 "vertical") 5 0 0 = none ∧
    removeConnectionArray (resetToOrganized 5 "vertical") 5 0 0 = none := by
  constructor <;> rfl

/-- C10, amended: `has_connection` and `get_cell_doors` accept every
integer coordinate pair and behave exactly like their Euclidean-wrapped
equivalents; `add_connection` and `remove_connection` succeed exactly on
`[-size, size)²` (negative indices are wrapped by the NumPy backend) and
there they also act on the wrapped cell, but for any coordinate at or
beyond `±size` they raise `IndexError`. -/
theorem c10_ops_wrap (g : Grid) (h : 0 < g.size) (c r : Int) (d : Fin 6) :
    hasConnection g c r d =
      hasConnection g ((wrap g.size c : Nat) : Int) ((wrap g.size r : Nat) : Int) d ∧
    getCellDoors g c r =
      getCellDoors g ((wrap g.size c : Nat) : Int) ((wrap g.size r : Nat) : Int) ∧
    ((-(g.size : Int) ≤ c ∧ c < g.size ∧ -(g.size : Int) ≤ r ∧ r < g.size) →
      addConnectionArray g c r d =
        some (addConnAt g (wrap g.size c) (wrap g.size r) d) ∧
      removeConnectionArray g c r d =
        some (removeConnAt g (wrap g.size c) (wrap g.size r) d)) ∧
    (((g.size : Int) ≤ c ∨ c < -(g.size : Int) ∨ (g.size : Int) ≤ r ∨ r < -(g.size : Int)) →
      addConnectionArray g c r d = none ∧ removeConnectionArray g c r d = none) := by
  refine ⟨?_, ?_, ?_, ?_⟩
  · unfold hasConnection
    rw [wrap_idem g.size h c, wrap_idem g.size h r]
  · unfold getCellDoors
    rw [wrap_idem g.size h c, wrap_idem g.size h r]
  · intro hin
    unfold addConnectionArray removeConnectionArray getNeighborCoords
    rw [if_pos hin]
    exact ⟨rfl, rfl⟩
  · intro hout
    unfold addConnectionArray removeConnectionArray getNeighborCoords
    rw [if_neg (by omega)]
    exact ⟨rfl, rfl⟩

/-! ### Bit-level facts about door masks -/

theorem testBit_set (m d i : Nat) :
    (m ||| (1 <<< d)).testBit i = (m.testBit i || decide (d = i)) := by
  rw [Nat.testBit_or, Nat.shiftLeft_eq, one_mul, Nat.testBit_two_pow]

theorem testBit_clear (m d i : Nat) (hd : d < 8) (hi : i < 8) :
    (m &&& (255 ^^^ (1 <<< d))).testBit i = (m.testBit i && !(decide (d = i))) := by
  rw [Nat.testBit_and, Nat.testBit_xor, Nat.shiftLeft_eq, one_mul, Nat.testBit_two_pow]
  have h255 : (255 : Nat).testBit i = true := by
    rw [show (255 : Nat) = 2 ^ 8 - 1 by norm_num, Nat.testBit_two_pow_sub_one]
    simpa using hi
  rw [h255]
  cases h : decide (d = i) <;> simp

/-- Replacing one present door `a` by one absent door `b` keeps the
number of set direction bits. -/
theorem doors_swap_count (m : Fin 64) (a b : Fin 6)
    (ha : (m : Nat).testBit (a : Nat) = true)
    (hb : (m : Nat).testBit (b : Nat) = false) :
    ((List.finRange 6).filter fun (d : Fin 6) =>
        (((m : Nat) &&& (255 ^^^ (1 <<< (a : Nat)))) ||| (1 <<< (b : Nat))).testBit
          (d : Nat)).length =
      ((List.finRange 6).filter fun (d : Fin 6) => (m : Nat).testBit (d : Nat)).length := by
  revert a b
  revert m
  decide

/-! ### Injectivity facts about the neighbor table -/

theorem wrap_eq_wrap_iff (size : Nat) (h : 0 < size) (a b : Int) :
    wrap size a = wrap size b ↔ a % (size : Int) = b % size := by
  constructor
  · intro hw
    rw [← wrap_emod size h a, hw, wrap_emod size h b]
  · exact wrap_congr size a b

theorem int_eq_zero_of_small (s : Nat) (x : Int) (h1 : -(s : Int) < x) (h2 : x < s)
    (hm : x % (s : Int) = 0) : x = 0 := by
  have hdvd : (s : Int) ∣ x := Int.dvd_of_emod_eq_zero hm
  by_contra hx
  have habs : (s : Int) ≤ |x| := Int.le_of_dvd (abs_pos.mpr hx) ((dvd_abs _ _).mpr hdvd)
  exact absurd habs (not_le.mpr (abs_lt.mpr ⟨h1, h2⟩))

theorem wrap_sub_mod (size : Nat) (h : 0 < size) (a b : Int)
    (hw : wrap size a = wrap size b) : (a - b) % (size : Int) = 0 := by
  have hab := (wrap_eq_wrap_iff size h a b).mp hw
  rw [Int.sub_emod, hab, Int.sub_self, Int.zero_emod]

theorem offsets_bounds : ∀ (k : Fin 2) (d : Fin 6),
    -1 ≤ (if (k : Nat) = 0 then evenColDirs d else oddColDirs d).1 ∧
    (if (k : Nat) = 0 then evenColDirs d else oddColDirs d).1 ≤ 1 ∧
    -1 ≤ (if (k : Nat) = 0 then evenColDirs d else oddColDirs d).2 ∧
    (if (k : Nat) = 0 then evenColDirs d else oddColDirs d).2 ≤ 1 ∧
    ¬((if (k : Nat) = 0 then evenColDirs d else oddColDirs d).1 = 0 ∧
      (if (k : Nat) = 0 then evenColDirs d else oddColDirs d).2 = 0) := by decide

theorem offsets_inj : ∀ (k : Fin 2) (d1 d2 : Fin 6),
    (if (k : Nat) = 0 then evenColDirs d1 else oddColDirs d1) =
      (if (k : Nat) = 0 then evenColDirs d2 else oddColDirs d2) → d1 = d2 := by decide

theorem offsets_fst_parity_free : ∀ d : Fin 6, (evenColDirs d).1 = (oddColDirs d).1 := by
  decide

/-- For `size ≥ 3` no cell is its own tabled neighbor. -/
theorem neighbor_ne_self (size : Nat) (h3 : 3 ≤ size) (c r : Nat)
    (hc : c < size) (hr : r < size) (d : Fin 6) :
    neighbor size c r d ≠ (c, r) := by
  intro heq
  have h0 : 0 < size := by omega
  have hb := offsets_bounds ⟨c % 2, Nat.mod_lt c (by norm_num)⟩ d
  rw [show (((⟨c % 2, Nat.mod_lt c (by norm_num)⟩ : Fin 2)) : Nat) = c % 2 from rfl] at hb
  set o : Int × Int := if c % 2 = 0 then evenColDirs d else oddColDirs d with ho
  have h1 : wrap size ((c : Int) + o.1) = wrap size ((c : Nat) : Int) := by
    rw [wrap_coe size c hc]
    exact congrArg Prod.fst heq
  have h2 : wrap size ((r : Int) + o.2) = wrap size ((r : Nat) : Int) := by
    rw [wrap_coe size r hr]
    exact congrArg Prod.snd heq
  have ho1 : o.1 = 0 := by
    have hm := wrap_sub_mod size h0 _ _ h1
    rw [show ((c : Int) + o.1 - c) = o.1 by ring] at hm
    exact int_eq_zero_of_small size o.1 (by omega) (by omega) hm
  have ho2 : o.2 = 0 := by
    have hm := wrap_sub_mod size h0 _ _ h2
    rw [show ((r : Int) + o.2 - r) = o.2 by ring] at hm
    exact int_eq_zero_of_small size o.2 (by omega) (by omega) hm
  exact hb.2.2.2.2 ⟨ho1, ho2⟩

/-- For `size ≥ 3`, distinct directions lead from a cell to distinct
tabled neighbors. -/
theorem neighbor_dir_inj (size : Nat) (h3 : 3 ≤ size) (c r : Nat)
    (hc : c < size) (hr : r < size) (d1 d2 : Fin 6)
    (heq : neighbor size c r d1 = neighbor size c r d2) : d1 = d2 := by
  have h0 : 0 < size := by omega
  have hb1 := offsets_bounds ⟨c % 2, Nat.mod_lt c (by norm_num)⟩ d1
  have hb2 := offsets_bounds ⟨c % 2, Nat.mod_lt c (by norm_num)⟩ d2
  rw [show (((⟨c % 2, Nat.mod_lt c (by norm_num)⟩ : Fin 2)) : Nat) = c % 2 from rfl] at hb1 hb2
  refine offsets_inj ⟨c % 2, Nat.mod_lt c (by norm_num)⟩ d1 d2 ?_
  rw [show (((⟨c % 2, Nat.mod_lt c (by norm_num)⟩ : Fin 2)) : Nat) = c % 2 from rfl]
  set o1 : Int × Int := if c % 2 = 0 then evenColDirs d1 else oddColDirs d1 with ho1
  set o2 : Int × Int := if c % 2 = 0 then evenColDirs d2 else oddColDirs d2 with ho2
  have h1 : wrap size ((c : Int) + o1.1) = wrap size ((c : Int) + o2.1) :=
    congrArg Prod.fst heq
  have h2 : wrap size ((r : Int) + o1.2) = wrap size ((r : Int) + o2.2) :=
    congrArg Prod.snd heq
  have e1 : o1.1 = o2.1 := by
    have hm := wrap_sub_mod size h0 _ _ h1
    rw [show ((c : Int) + o1.1 - ((c : Int) + o2.1)) = o1.1 - o2.1 by ring] at hm
    have := int_eq_zero_of_small size (o1.1 - o2.1) (by omega) (by omega) hm
    omega
  have e2 : o1.2 = o2.2 := by
    have hm := wrap_sub_mod size h0 _ _ h2
    rw [show ((r : Int) + o1.2 - ((r : Int) + o2.2)) = o1.2 - o2.2 by ring] at hm
    have := int_eq_zero_of_small size (o1.2 - o2.2) (by omega) (by omega) hm
    omega
  exact Prod.ext e1 e2

/-- For `size ≥ 3` and a fixed direction, the tabled neighbor determines
the cell (the column offset of a direction does not depend on parity). -/
theorem neighbor_cell_inj (size : Nat) (h3 : 3 ≤ size) (c1 r1 c2 r2 : Nat)
    (hc1 : c1 < size) (hr1 : r1 < size) (hc2 : c2 < size) (hr2 : r2 < size) (d : Fin 6)
    (heq : neighbor size c1 r1 d = neighbor size c2 r2 d) : c1 = c2 ∧ r1 = r2 := by
  have h0 : 0 < size := by omega
  set o1 : Int × Int := if c1 % 2 = 0 then evenColDirs d else oddColDirs d with ho1
  set o2 : Int × Int := if c2 % 2 = 0 then evenColDirs d else oddColDirs d with ho2
  have hfst : o1.1 = o2.1 := by
    rw [ho1, ho2]
    by_cases hp1 : c1 % 2 = 0 <;> by_cases hp2 : c2 % 2 = 0 <;>
      simp only [if_pos, if_neg, hp1, hp2, if_true, if_false] <;>
      first
        | rfl
        | exact offsets_fst_parity_free d
        | exact (offsets_fst_parity_free d).symm
  have h1 : wrap size ((c1 : Int) + o1.1) = wrap size ((c2 : Int) + o2.1) :=
    congrArg Prod.fst heq
  have hcc : c1 = c2 := by
    have hm := wrap_sub_mod size h0 _ _ h1
    rw [hfst, show ((c1 : Int) + o2.1 - ((c2 : Int) + o2.1)) = (c1 : Int) - c2 by ring] at hm
    have := int_eq_zero_of_small size ((c1 : Int) - c2) (by omega) (by omega) hm
    omega
  subst hcc
  refine ⟨rfl, ?_⟩
  have ho12 : o1 = o2 := by rw [ho1, ho2]
  have h2 : wrap size ((r1 : Int) + o1.2) = wrap size ((r2 : Int) + o1.2) := by
    rw [ho12]
    exact congrArg Prod.snd heq
  have hm := wrap_sub_mod size h0 _ _ h2
  rw [show ((r1 : Int) + o1.2 - ((r2 : Int) + o1.2)) = (r1 : Int) - r2 by ring] at hm
  have := int_eq_zero_of_small size ((r1 : Int) - r2) (by omega) (by omega) hm
  omega

/-- `opp` is an involution. -/
theorem opp_opp : ∀ d : Fin 6, opp (opp d) = d := by decide

theorem opp_inj {a b : Fin 6} (h : opp a = opp b) : a = b := by
  have := congrArg opp h
  rwa [opp_opp, opp_opp] at this

/-! ### Mask tracking through the symmetric add/remove operations -/

theorem size_updMask (g : Grid) (c r m : Nat) : (updMask g c r m).size = g.size := rfl

theorem size_addConnAt (g : Grid) (c r : Nat) (d : Fin 6) :
    (addConnAt g c r d).size = g.size := rfl

theorem size_removeConnAt (g : Grid) (c r : Nat) (d : Fin 6) :
    (removeConnAt g c r d).size = g.size := rfl

theorem mask_updMask (g : Grid) (c r m w1 w2 : Nat) :
    (updMask g c r m).mask w1 w2 = if w1 = c ∧ w2 = r then m else g.mask w1 w2 := rfl

theorem mask_addConnAt_of_ne (g : Grid) (c r : Nat) (d : Fin 6) (w1 w2 : Nat)
    (h1 : ¬(w1 = c ∧ w2 = r))
    (h2 : ¬(w1 = (neighbor g.size c r d).1 ∧ w2 = (neighbor g.size c r d).2)) :
    (addConnAt g c r d).mask w1 w2 = g.mask w1 w2 := by
  unfold addConnAt
  rw [mask_updMask, if_neg h2, mask_updMask, if_neg h1]

theorem mask_addConnAt_self (g : Grid) (c r : Nat) (d : Fin 6)
    (hne : neighbor g.size c r d ≠ (c, r)) :
    (addConnAt g c r d).mask c r = g.mask c r ||| (1 <<< (d : Nat)) := by
  unfold addConnAt
  rw [mask_updMask, if_neg (by
    intro hcr
    exact hne (Prod.ext_iff.mpr ⟨hcr.1.symm, hcr.2.symm⟩)), mask_updMask,
    if_pos ⟨rfl, rfl⟩]

theorem mask_addConnAt_nbr (g : Grid) (c r : Nat) (d : Fin 6)
    (hne : neighbor g.size c r d ≠ (c, r)) :
    (addConnAt g c r d).mask (neighbor g.size c r d).1 (neighbor g.size c r d).2 =
      g.mask (neighbor g.size c r d).1 (neighbor g.size c r d).2
        ||| (1 <<< ((opp d) : Nat)) := by
  unfold addConnAt
  rw [mask_updMask, if_pos ⟨rfl, rfl⟩, mask_updMask, if_neg (by
    intro hcr
    exact hne (Prod.ext_iff.mpr ⟨hcr.1, hcr.2⟩))]

theorem mask_removeConnAt_of_ne (g : Grid) (c r : Nat) (d : Fin 6) (w1 w2 : Nat)
    (h1 : ¬(w1 = c ∧ w2 = r))
    (h2 : ¬(w1 = (neighbor g.size c r d).1 ∧ w2 = (neighbor g.size c r d).2)) :
    (removeConnAt g c r d).mask w1 w2 = g.mask w1 w2 := by
  unfold removeConnAt
  rw [mask_updMask, if_neg h2, mask_updMask, if_neg h1]

theorem mask_removeConnAt_self (g : Grid) (c r : Nat) (d : Fin 6)
    (hne : neighbor g.size c r d ≠ (c, r)) :
    (removeConnAt g c r d).mask c r = g.mask c r &&& (255 ^^^ (1 <<< (d : Nat))) := by
  unfold removeConnAt
  rw [mask_updMask, if_neg (by
    intro hcr
    exact hne (Prod.ext_iff.mpr ⟨hcr.1.symm, hcr.2.symm⟩)), mask_updMask,
    if_pos ⟨rfl, rfl⟩]

theorem mask_removeConnAt_nbr (g : Grid) (c r : Nat) (d : Fin 6)
    (hne : neighbor g.size c r d ≠ (c, r)) :
    (removeConnAt g c r d).mask (neighbor g.size c r d).1 (neighbor g.size c r d).2 =
      g.mask (neighbor g.size c r d).1 (neighbor g.size c r d).2
        &&& (255 ^^^ (1 <<< ((opp d) : Nat))) := by
  unfold removeConnAt
  rw [mask_updMask, if_pos ⟨rfl, rfl⟩, mask_updMask, if_neg (by
    intro hcr
    exact hne (Prod.ext_iff.mpr ⟨hcr.1, hcr.2⟩))]

theorem bool_eq_iff (a b : Bool) : a = b ↔ ((a = true) ↔ (b = true)) := by
  cases a <;> cases b <;> simp

/-- Full characterization of the bits after `_add_connection_array`. -/
theorem hasConn_addConnAt_iff (g : Grid) (c r : Nat) (d : Fin 6)
    (hne : neighbor g.size c r d ≠ (c, r)) (p q : Nat) (e : Fin 6) :
    hasConn (addConnAt g c r d) p q e = true ↔
      (hasConn g p q e = true ∨ ((p = c ∧ q = r) ∧ e = d) ∨
        ((p = (neighbor g.size c r d).1 ∧ q = (neighbor g.size c r d).2) ∧ e = opp d)) := by
  have hnotn : ¬((neighbor g.size c r d).1 = c ∧ (neighbor g.size c r d).2 = r) := by
    intro hcr
    exact hne (Prod.ext_iff.mpr ⟨hcr.1, hcr.2⟩)
  have hnotn' : ¬(c = (neighbor g.size c r d).1 ∧ r = (neighbor g.size c r d).2) :=
    fun hcr => hnotn ⟨hcr.1.symm, hcr.2.symm⟩
  by_cases h2 : p = c ∧ q = r
  · obtain ⟨hp, hq⟩ := h2
    rw [hp, hq]
    unfold hasConn
    rw [mask_addConnAt_self g c r d hne, testBit_set]
    simp only [Bool.or_eq_true, decide_eq_true_eq]
    constructor
    · rintro (h | h)
      · exact Or.inl h
      · exact Or.inr (Or.inl ⟨⟨trivial, trivial⟩, Fin.val_injective h.symm⟩)
    · rintro (h | ⟨_, he⟩ | ⟨hn, _⟩)
      · exact Or.inl h
      · exact Or.inr (congrArg Fin.val he.symm)
      · exact absurd hn hnotn'
  · by_cases h1 : p = (neighbor g.size c r d).1 ∧ q = (neighbor g.size c r d).2
    · obtain ⟨hp, hq⟩ := h1
      rw [hp, hq]
      unfold hasConn
      rw [mask_addConnAt_nbr g c r d hne, testBit_set]
      simp only [Bool.or_eq_true, decide_eq_true_eq]
      constructor
      · rintro (h | h)
        · exact Or.inl h
        · exact Or.inr (Or.inr ⟨⟨trivial, trivial⟩, Fin.val_injective h.symm⟩)
      · rintro (h | ⟨hn, _⟩ | ⟨_, he⟩)
        · exact Or.inl h
        · exact absurd hn hnotn
        · exact Or.inr (congrArg Fin.val he.symm)
    · unfold hasConn
      rw [mask_addConnAt_of_ne g c r d p q h2 h1]
      constructor
      · exact fun h => Or.inl h
      · rintro (h | ⟨hpq, _⟩ | ⟨hpq, _⟩)
        · exact h
        · exact absurd hpq h2
        · exact absurd hpq h1

/-- Full characterization of the bits after `_remove_connection_array`. -/
theorem hasConn_removeConnAt_iff (g : Grid) (c r : Nat) (d : Fin 6)
    (hne : neighbor g.size c r d ≠ (c, r)) (p q : Nat) (e : Fin 6) :
    hasConn (removeConnAt g c r d) p q e = true ↔
      (hasConn g p q e = true ∧ ¬((p = c ∧ q = r) ∧ e = d) ∧
        ¬((p = (neighbor g.size c r d).1 ∧ q = (neighbor g.size c r d).2) ∧ e = opp d)) := by
  have hnotn : ¬((neighbor g.size c r d).1 = c ∧ (neighbor g.size c r d).2 = r) := by
    intro hcr
    exact hne (Prod.ext_iff.mpr ⟨hcr.1, hcr.2⟩)
  have hnotn' : ¬(c = (neighbor g.size c r d).1 ∧ r = (neighbor g.size c r d).2) :=
    fun hcr => hnotn ⟨hcr.1.symm, hcr.2.symm⟩
  have hd8 : (d : Nat) < 8 := by omega
  have hopp8 : ((opp d) : Nat) < 8 := by omega
  have he8 : (e : Nat) < 8 := by omega
  by_cases h2 : p = c ∧ q = r
  · obtain ⟨hp, hq⟩ := h2
    rw [hp, hq]
    unfold hasConn
    rw [mask_removeConnAt_self g c r d hne, testBit_clear _ _ _ hd8 he8]
    simp only [Bool.and_eq_true, Bool.not_eq_true', decide_eq_false_iff_not]
    constructor
    · rintro ⟨h, hde⟩
      refine ⟨h, fun hh => hde (congrArg Fin.val hh.2.symm), fun hh => hnotn' hh.1⟩
    · rintro ⟨h, hA, _⟩
      exact ⟨h, fun hde => hA ⟨⟨trivial, trivial⟩, Fin.val_injective hde.symm⟩⟩
  · by_cases h1 : p = (neighbor g.size c r d).1 ∧ q = (neighbor g.size c r d).2
    · obtain ⟨hp, hq⟩ := h1
      rw [hp, hq]
      unfold hasConn
      rw [mask_removeConnAt_nbr g c r d hne, testBit_clear _ _ _ hopp8 he8]
      simp only [Bool.and_eq_true, Bool.not_eq_true', decide_eq_false_iff_not]
      constructor
      · rintro ⟨h, hde⟩
        refine ⟨h, fun hh => hnotn hh.1, fun hh => hde (congrArg Fin.val hh.2.symm)⟩
      · rintro ⟨h, _, hB⟩
        exact ⟨h, fun hde => hB ⟨⟨trivial, trivial⟩, Fin.val_injective hde.symm⟩⟩
    · unfold hasConn
      rw [mask_removeConnAt_of_ne g c r d p q h2 h1]
      constructor
      · exact fun h => ⟨h, fun hh => h2 hh.1, fun hh => h1 hh.1⟩
      · exact fun h => h.1

/-- On an even-size torus, `_add_connection_array` at an in-range cell
preserves the symmetry invariant: the two bits it sets are each other's
mates. -/
theorem symm_addConnAt (g : Grid) (he : g.size % 2 = 0) (h3 : 3 ≤ g.size)
    (hS : Symm g) (c r : Nat) (hc : c < g.size) (hr : r < g.size) (d : Fin 6) :
    Symm (addConnAt g c r d) := by
  intro p hp q hq e
  rw [size_addConnAt] at hp hq
  have h0 : 0 < g.size := by omega
  have hne : neighbor g.size c r d ≠ (c, r) := neighbor_ne_self g.size h3 c r hc hr d
  have hrt : neighbor g.size (neighbor g.size c r d).1 (neighbor g.size c r d).2 (opp d)
      = (c, r) := neighbor_roundtrip g.size he h0 c r hc hr d
  have hmrt : neighbor g.size (neighbor g.size p q e).1 (neighbor g.size p q e).2 (opp e)
      = (p, q) := neighbor_roundtrip g.size he h0 p q hp hq e
  show hasConn (addConnAt g c r d) p q e =
    hasConn (addConnAt g c r d) (neighbor g.size p q e).1 (neighbor g.size p q e).2 (opp e)
  rw [bool_eq_iff, hasConn_addConnAt_iff g c r d hne p q e,
    hasConn_addConnAt_iff g c r d hne (neighbor g.size p q e).1 (neighbor g.size p q e).2
      (opp e)]
  constructor
  · rintro (horig | ⟨⟨hpc, hqr⟩, hed⟩ | ⟨⟨hpn, hqn⟩, heod⟩)
    · exact Or.inl ((hS p hp q hq e) ▸ horig)
    · subst hpc
      subst hqr
      subst hed
      exact Or.inr (Or.inr ⟨⟨rfl, rfl⟩, rfl⟩)
    · subst hpn
      subst hqn
      subst heod
      rw [hrt]
      exact Or.inr (Or.inl ⟨⟨rfl, rfl⟩, opp_opp d⟩)
  · rintro (horig | ⟨hmc, hoed⟩ | ⟨hmn, hoeod⟩)
    · exact Or.inl ((hS p hp q hq e).symm ▸ horig)
    · -- mate of (p,q,e) is (c,r) with door d: then (p,q) = neighbor c r d, e = opp d
      have hed : e = opp d := by
        rw [← hoed, opp_opp]
      have hpq : (p, q) = neighbor g.size c r d := by
        rw [← hmrt, hmc.1, hmc.2, hoed]
      exact Or.inr (Or.inr ⟨⟨congrArg Prod.fst hpq, congrArg Prod.snd hpq⟩, hed⟩)
    · -- mate of (p,q,e) is the tabled neighbor with door opp d: then (p,q) = (c,r), e = d
      have hed : e = d := opp_inj hoeod
      have hpq : (p, q) = (c, r) := by
        rw [← hmrt, hmn.1, hmn.2, hoeod, hrt]
      exact Or.inr (Or.inl ⟨⟨congrArg Prod.fst hpq, congrArg Prod.snd hpq⟩, hed⟩)

/-- On an even-size torus, `_remove_connection_array` at an in-range
cell preserves the symmetry invariant. -/
theorem symm_removeConnAt (g : Grid) (he : g.size % 2 = 0) (h3 : 3 ≤ g.size)
    (hS : Symm g) (c r : Nat) (hc : c < g.size) (hr : r < g.size) (d : Fin 6) :
    Symm (removeConnAt g c r d) := by
  intro p hp q hq e
  rw [size_removeConnAt] at hp hq
  have h0 : 0 < g.size := by omega
  have hne : neighbor g.size c r d ≠ (c, r) := neighbor_ne_self g.size h3 c r hc hr d
  have hrt : neighbor g.size (neighbor g.size c r d).1 (neighbor g.size c r d).2 (opp d)
      = (c, r) := neighbor_roundtrip g.size he h0 c r hc hr d
  have hmrt : neighbor g.size (neighbor g.size p q e).1 (neighbor g.size p q e).2 (opp e)
      = (p, q) := neighbor_roundtrip g.size he h0 p q hp hq e
  show hasConn (removeConnAt g c r d) p q e =
    hasConn (removeConnAt g c r d) (neighbor g.size p q e).1 (neighbor g.size p q e).2
      (opp e)
  rw [bool_eq_iff, hasConn_removeConnAt_iff g c r d hne p q e,
    hasConn_removeConnAt_iff g c r d hne (neighbor g.size p q e).1 (neighbor g.size p q e).2
      (opp e)]
  constructor
  · rintro ⟨horig, hA, hB⟩
    refine ⟨(hS p hp q hq e) ▸ horig, ?_, ?_⟩
    · rintro ⟨hmc, hoed⟩
      have hed : e = opp d := by rw [← hoed, opp_opp]
      have hpq : (p, q) = neighbor g.size c r d := by
        rw [← hmrt, hmc.1, hmc.2, hoed]
      exact hB ⟨⟨congrArg Prod.fst hpq, congrArg Prod.snd hpq⟩, hed⟩
    · rintro ⟨hmn, hoeod⟩
      have hed : e = d := opp_inj hoeod
      have hpq : (p, q) = (c, r) := by
        rw [← hmrt, hmn.1, hmn.2, hoeod, hrt]
      exact hA ⟨⟨congrArg Prod.fst hpq, congrArg Prod.snd hpq⟩, hed⟩
  · rintro ⟨horig, hA', hB'⟩
    refine ⟨(hS p hp q hq e).symm ▸ horig, ?_, ?_⟩
    · rintro ⟨⟨hpc, hqr⟩, hed⟩
      subst hpc
      subst hqr
      subst hed
      exact hB' ⟨⟨rfl, rfl⟩, rfl⟩
    · rintro ⟨⟨hpn, hqn⟩, heod⟩
      subst hpn
      subst hqn
      subst heod
      refine hA' ?_
      rw [hrt]
      exact ⟨⟨rfl, rfl⟩, opp_opp d⟩

theorem not_and_of_ne_pair {a b : Nat} {p : Nat × Nat} (h : (a, b) ≠ p) :
    ¬(a = p.1 ∧ b = p.2) :=
  fun hc => h (Prod.ext_iff.mpr ⟨hc.1, hc.2⟩)

theorem shiftLeft_one_lt_64 (d : Fin 6) : (1 <<< (d : Nat)) < 64 := by
  rw [Nat.shiftLeft_eq, one_mul]
  calc (2 : Nat) ^ (d : Nat) ≤ 2 ^ 5 := Nat.pow_le_pow_right (by norm_num) (by omega)
    _ < 64 := by norm_num

theorem or_lt_64 {a b : Nat} (ha : a < 64) (hb : b < 64) : a ||| b < 64 := by
  have h64 : (64 : Nat) = 2 ^ 6 := by norm_num
  rw [h64] at ha hb ⊢
  exact Nat.or_lt_two_pow ha hb

theorem maskOk_addConnAt (g : Grid) (hM : MaskOk g) (h0 : 0 < g.size)
    (c r : Nat) (hc : c < g.size) (hr : r < g.size) (d : Fin 6) :
    MaskOk (addConnAt g c r d) := by
  intro w1 h1 w2 h2
  rw [size_addConnAt] at h1 h2
  have hn1 := neighbor_fst_lt g.size h0 c r d
  have hn2 := neighbor_snd_lt g.size h0 c r d
  unfold addConnAt
  simp only [mask_updMask]
  split_ifs with hA hB hB
  · exact or_lt_64
      (or_lt_64 (hM c hc r hr) (shiftLeft_one_lt_64 d)) (shiftLeft_one_lt_64 (opp d))
  · exact or_lt_64 (hM _ hn1 _ hn2) (shiftLeft_one_lt_64 (opp d))
  · exact or_lt_64 (hM c hc r hr) (shiftLeft_one_lt_64 d)
  · exact hM w1 h1 w2 h2

theorem maskOk_removeConnAt (g : Grid) (hM : MaskOk g) (h0 : 0 < g.size)
    (c r : Nat) (hc : c < g.size) (hr : r < g.size) (d : Fin 6) :
    MaskOk (removeConnAt g c r d) := by
  intro w1 h1 w2 h2
  rw [size_removeConnAt] at h1 h2
  have hn1 := neighbor_fst_lt g.size h0 c r d
  have hn2 := neighbor_snd_lt g.size h0 c r d
  unfold removeConnAt
  simp only [mask_updMask]
  split_ifs with hA hB hB
  · exact lt_of_le_of_lt (Nat.and_le_left)
      (lt_of_le_of_lt (Nat.and_le_left) (hM c hc r hr))
  · exact lt_of_le_of_lt (Nat.and_le_left) (hM _ hn1 _ hn2)
  · exact lt_of_le_of_lt (Nat.and_le_left) (hM c hc r hr)
  · exact hM w1 h1 w2 h2

/-- Swapping one present door for one absent door keeps the cell's door
count. -/
theorem doors_len_eq_of_mask_swap (g g4 : Grid) (w1 w2 : Nat) (a b : Fin 6)
    (hm : g.mask w1 w2 < 64)
    (hmask : g4.mask w1 w2 =
      (g.mask w1 w2 &&& (255 ^^^ (1 <<< (a : Nat)))) ||| (1 <<< (b : Nat)))
    (ha : hasConn g w1 w2 a = true) (hb : hasConn g w1 w2 b = false) :
    (doorsAt g4 w1 w2).length = (doorsAt g w1 w2).length := by
  have hds := doors_swap_count ⟨g.mask w1 w2, hm⟩ a b ha hb
  unfold doorsAt
  rw [hmask]
  exact hds

/-- The `doorsAt` list only depends on the cell's mask value. -/
theorem doorsAt_congr (g g' : Grid) (w1 w2 : Nat)
    (h : g'.mask w1 w2 = g.mask w1 w2) : doorsAt g' w1 w2 = doorsAt g w1 w2 := by
  unfold doorsAt
  rw [h]

/-- The heart of claim C1: on an even-size lattice satisfying the three
invariants, the atomic rewire of `perform_swap_vectorized`
(`remove u-v; remove x-y; add u-P; add v-Q` with `{P, Q} = {x, y}`)
preserves all three. -/
theorem rewire_preserves (g : Grid) (he : g.size % 2 = 0) (h5 : 5 ≤ g.size)
    (hM : MaskOk g) (hS : Symm g) (hD : Deg2 g)
    (uc ur xc xr vc vr yc yr : Nat)
    (hu : uc < g.size) (hur : ur < g.size) (hx : xc < g.size) (hxr : xr < g.size)
    (duv dxy dA dB : Fin 6)
    (hv : neighbor g.size uc ur duv = (vc, vr))
    (hy : neighbor g.size xc xr dxy = (yc, yr))
    (hduv : hasConn g uc ur duv = true) (hdxy : hasConn g xc xr dxy = true)
    (hhA : hasConn g uc ur dA = false) (hhB : hasConn g vc vr dB = false)
    (hPQ : (neighbor g.size uc ur dA = (xc, xr) ∧ neighbor g.size vc vr dB = (yc, yr)) ∨
           (neighbor g.size uc ur dA = (yc, yr) ∧ neighbor g.size vc vr dB = (xc, xr)))
    (hd1 : (uc, ur) ≠ (vc, vr)) (hd2 : (uc, ur) ≠ (xc, xr)) (hd3 : (uc, ur) ≠ (yc, yr))
    (hd4 : (vc, vr) ≠ (xc, xr)) (hd5 : (vc, vr) ≠ (yc, yr)) (hd6 : (xc, xr) ≠ (yc, yr)) :
    MaskOk (addConnAt (addConnAt (removeConnAt (removeConnAt g uc ur duv) xc xr dxy)
        uc ur dA) vc vr dB) ∧
    Symm (addConnAt (addConnAt (removeConnAt (removeConnAt g uc ur duv) xc xr dxy)
        uc ur dA) vc vr dB) ∧
    Deg2 (addConnAt (addConnAt (removeConnAt (removeConnAt g uc ur duv) xc xr dxy)
        uc ur dA) vc vr dB) := by
  have h0 : 0 < g.size := by omega
  have h3 : 3 ≤ g.size := by omega
  have hvc : vc < g.size := by
    have h := neighbor_fst_lt g.size h0 uc ur duv
    rw [hv] at h
    exact h
  have hvr : vr < g.size := by
    have h := neighbor_snd_lt g.size h0 uc ur duv
    rw [hv] at h
    exact h
  have hyc : yc < g.size := by
    have h := neighbor_fst_lt g.size h0 xc xr dxy
    rw [hy] at h
    exact h
  have hyr : yr < g.size := by
    have h := neighbor_snd_lt g.size h0 xc xr dxy
    rw [hy] at h
    exact h
  have hSv : hasConn g vc vr (opp duv) = true := by
    have h := hS uc hu ur hur duv
    rw [hv] at h
    exact h.symm.trans hduv
  have hSy : hasConn g yc yr (opp dxy) = true := by
    have h := hS xc hx xr hxr dxy
    rw [hy] at h
    exact h.symm.trans hdxy
  set g1 := removeConnAt g uc ur duv with hg1
  set g2 := removeConnAt g1 xc xr dxy with hg2
  set g3 := addConnAt g2 uc ur dA with hg3
  set g4 := addConnAt g3 vc vr dB with hg4
  have hM1 : MaskOk g1 := maskOk_removeConnAt g hM h0 uc ur hu hur duv
  have hM2 : MaskOk g2 := maskOk_removeConnAt g1 hM1 h0 xc xr hx hxr dxy
  have hM3 : MaskOk g3 := maskOk_addConnAt g2 hM2 h0 uc ur hu hur dA
  have hM4 : MaskOk g4 := maskOk_addConnAt g3 hM3 h0 vc vr hvc hvr dB
  have hS1 : Symm g1 := symm_removeConnAt g he h3 hS uc ur hu hur duv
  have hS2 : Symm g2 := symm_removeConnAt g1 he h3 hS1 xc xr hx hxr dxy
  have hS3 : Symm g3 := symm_addConnAt g2 he h3 hS2 uc ur hu hur dA
  have hS4 : Symm g4 := symm_addConnAt g3 he h3 hS3 vc vr hvc hvr dB
  refine ⟨hM4, hS4, ?_⟩
  -- g1.mask at v is the mate write of the first remove
  have hmv1 : g1.mask vc vr =
      g.mask vc vr &&& (255 ^^^ (1 <<< ((opp duv) : Nat))) := by
    have h := mask_removeConnAt_nbr g uc ur duv (by rw [hv]; exact Ne.symm hd1)
    rw [hv] at h
    exact h
  -- g2.mask at y is the mate write of the second remove
  have hmy2 : ∀ m, g1.mask yc yr = m →
      g2.mask yc yr = m &&& (255 ^^^ (1 <<< ((opp dxy) : Nat))) := by
    intro m hm
    have h := mask_removeConnAt_nbr g1 xc xr dxy
      (by rw [show neighbor g1.size xc xr dxy = (yc, yr) from hy]; exact Ne.symm hd6)
    rw [show neighbor g1.size xc xr dxy = (yc, yr) from hy] at h
    rw [← hg2] at h
    rw [h, hm]
  intro w1 hw1 w2 hw2
  rw [show g4.size = g.size from rfl] at hw1 hw2
  rcases hPQ with ⟨hP, hQ⟩ | ⟨hP, hQ⟩
  · -- pairing A: P = x, Q = y
    by_cases hwu : w1 = uc ∧ w2 = ur
    · rw [hwu.1, hwu.2]
      have hmask : g4.mask uc ur =
          (g.mask uc ur &&& (255 ^^^ (1 <<< (duv : Nat)))) ||| (1 <<< (dA : Nat)) := by
        rw [hg4, mask_addConnAt_of_ne g3 vc vr dB uc ur (not_and_of_ne_pair hd1)
          (by rw [show neighbor g3.size vc vr dB = (yc, yr) from hQ]
              exact not_and_of_ne_pair hd3)]
        rw [hg3, mask_addConnAt_self g2 uc ur dA
          (by rw [show neighbor g2.size uc ur dA = (xc, xr) from hP]
              exact Ne.symm hd2)]
        rw [hg2, mask_removeConnAt_of_ne g1 xc xr dxy uc ur (not_and_of_ne_pair hd2)
          (by rw [show neighbor g1.size xc xr dxy = (yc, yr) from hy]
              exact not_and_of_ne_pair hd3)]
        rw [hg1, mask_removeConnAt_self g uc ur duv (by rw [hv]; exact Ne.symm hd1)]
      rw [doors_len_eq_of_mask_swap g g4 uc ur duv dA (hM uc hu ur hur) hmask hduv hhA]
      exact hD uc hu ur hur
    · by_cases hwv : w1 = vc ∧ w2 = vr
      · rw [hwv.1, hwv.2]
        have hmask : g4.mask vc vr =
            (g.mask vc vr &&& (255 ^^^ (1 <<< ((opp duv) : Nat)))) |||
              (1 <<< (dB : Nat)) := by
          rw [hg4, mask_addConnAt_self g3 vc vr dB
            (by rw [show neighbor g3.size vc vr dB = (yc, yr) from hQ]
                exact Ne.symm hd5)]
          rw [hg3, mask_addConnAt_of_ne g2 uc ur dA vc vr
            (not_and_of_ne_pair (Ne.symm hd1))
            (by rw [show neighbor g2.size uc ur dA = (xc, xr) from hP]
                exact not_and_of_ne_pair hd4)]
          rw [hg2, mask_removeConnAt_of_ne g1 xc xr dxy vc vr (not_and_of_ne_pair hd4)
            (by rw [show neighbor g1.size xc xr dxy = (yc, yr) from hy]
                exact not_and_of_ne_pair hd5)]
          rw [hmv1]
        rw [doors_len_eq_of_mask_swap g g4 vc vr (opp duv) dB (hM vc hvc vr hvr)
          hmask hSv hhB]
        exact hD vc hvc vr hvr
      · by_cases hwx : w1 = xc ∧ w2 = xr
        · rw [hwx.1, hwx.2]
          have hbx : hasConn g xc xr (opp dA) = false := by
            have h := hS uc hu ur hur dA
            rw [hP] at h
            exact h.symm.trans hhA
          have hmask : g4.mask xc xr =
              (g.mask xc xr &&& (255 ^^^ (1 <<< (dxy : Nat)))) |||
                (1 <<< ((opp dA) : Nat)) := by
            rw [hg4, mask_addConnAt_of_ne g3 vc vr dB xc xr
              (not_and_of_ne_pair (Ne.symm hd4))
              (by rw [show neighbor g3.size vc vr dB = (yc, yr) from hQ]
                  exact not_and_of_ne_pair hd6)]
            have h3x : g3.mask xc xr = g2.mask xc xr ||| (1 <<< ((opp dA) : Nat)) := by
              have h := mask_addConnAt_nbr g2 uc ur dA
                (by rw [show neighbor g2.size uc ur dA = (xc, xr) from hP]
                    exact Ne.symm hd2)
              rw [show neighbor g2.size uc ur dA = (xc, xr) from hP] at h
              rw [← hg3] at h
              exact h
            rw [h3x]
            rw [hg2, mask_removeConnAt_self g1 xc xr dxy
              (by rw [show neighbor g1.size xc xr dxy = (yc, yr) from hy]
                  exact Ne.symm hd6)]
            rw [hg1, mask_removeConnAt_of_ne g uc ur duv xc xr
              (not_and_of_ne_pair (Ne.symm hd2))
              (by rw [hv]; exact not_and_of_ne_pair (Ne.symm hd4))]
          rw [doors_len_eq_of_mask_swap g g4 xc xr dxy (opp dA) (hM xc hx xr hxr)
            hmask hdxy hbx]
          exact hD xc hx xr hxr
        · by_cases hwy : w1 = yc ∧ w2 = yr
          · rw [hwy.1, hwy.2]
            have hby : hasConn g yc yr (opp dB) = false := by
              have h := hS vc hvc vr hvr dB
              rw [hQ] at h
              exact h.symm.trans hhB
            have hmask : g4.mask yc yr =
                (g.mask yc yr &&& (255 ^^^ (1 <<< ((opp dxy) : Nat)))) |||
                  (1 <<< ((opp dB) : Nat)) := by
              have h4y : g4.mask yc yr =
                  g3.mask yc yr ||| (1 <<< ((opp dB) : Nat)) := by
                have h := mask_addConnAt_nbr g3 vc vr dB
                  (by rw [show neighbor g3.size vc vr dB = (yc, yr) from hQ]
                      exact Ne.symm hd5)
                rw [show neighbor g3.size vc vr dB = (yc, yr) from hQ] at h
                rw [← hg4] at h
                exact h
              rw [h4y]
              rw [hg3, mask_addConnAt_of_ne g2 uc ur dA yc yr
                (not_and_of_ne_pair (Ne.symm hd3))
                (by rw [show neighbor g2.size uc ur dA = (xc, xr) from hP]
                    exact not_and_of_ne_pair (Ne.symm hd6))]
              rw [hmy2 (g1.mask yc yr) rfl]
              rw [hg1, mask_removeConnAt_of_ne g uc ur duv yc yr
                (not_and_of_ne_pair (Ne.symm hd3))
                (by rw [hv]; exact not_and_of_ne_pair (Ne.symm hd5))]
            rw [doors_len_eq_of_mask_swap g g4 yc yr (opp dxy) (opp dB)
              (hM yc hyc yr hyr) hmask hSy hby]
            exact hD yc hyc yr hyr
          · -- untouched cell
            have hmask : g4.mask w1 w2 = g.mask w1 w2 := by
              rw [hg4, mask_addConnAt_of_ne g3 vc vr dB w1 w2 hwv
                (by rw [show neighbor g3.size vc vr dB = (yc, yr) from hQ]
                    exact hwy)]
              rw [hg3, mask_addConnAt_of_ne g2 uc ur dA w1 w2 hwu
                (by rw [show neighbor g2.size uc ur dA = (xc, xr) from hP]
                    exact hwx)]
              rw [hg2, mask_removeConnAt_of_ne g1 xc xr dxy w1 w2 hwx
                (by rw [show neighbor g1.size xc xr dxy = (yc, yr) from hy]
                    exact hwy)]
              rw [hg1, mask_removeConnAt_of_ne g uc ur duv w1 w2 hwu
                (by rw [hv]; exact hwv)]
            rw [doorsAt_congr g g4 w1 w2 hmask]
            exact hD w1 hw1 w2 hw2
  · -- pairing B: P = y, Q = x
    by_cases hwu : w1 = uc ∧ w2 = ur
    · rw [hwu.1, hwu.2]
      have hmask : g4.mask uc ur =
          (g.mask uc ur &&& (255 ^^^ (1 <<< (duv : Nat)))) ||| (1 <<< (dA : Nat)) := by
        rw [hg4, mask_addConnAt_of_ne g3 vc vr dB uc ur (not_and_of_ne_pair hd1)
          (by rw [show neighbor g3.size vc vr dB = (xc, xr) from hQ]
              exact not_and_of_ne_pair hd2)]
        rw [hg3, mask_addConnAt_self g2 uc ur dA
          (by rw [show neighbor g2.size uc ur dA = (yc, yr) from hP]
              exact Ne.symm hd3)]
        rw [hg2, mask_removeConnAt_of_ne g1 xc xr dxy uc ur (not_and_of_ne_pair hd2)
          (by rw [show neighbor g1.size xc xr dxy = (yc, yr) from hy]
              exact not_and_of_ne_pair hd3)]
        rw [hg1, mask_removeConnAt_self g uc ur duv (by rw [hv]; exact Ne.symm hd1)]
      rw [doors_len_eq_of_mask_swap g g4 uc ur duv dA (hM uc hu ur hur) hmask hduv hhA]
      exact hD uc hu ur hur
    · by_cases hwv : w1 = vc ∧ w2 = vr
      · rw [hwv.1, hwv.2]
        have hmask : g4.mask vc vr =
            (g.mask vc vr &&& (255 ^^^ (1 <<< ((opp duv) : Nat)))) |||
              (1 <<< (dB : Nat)) := by
          rw [hg4, mask_addConnAt_self g3 vc vr dB
            (by rw [show neighbor g3.size vc vr dB = (xc, xr) from hQ]
                exact Ne.symm hd4)]
          rw [hg3, mask_addConnAt_of_ne g2 uc ur dA vc vr
            (not_and_of_ne_pair (Ne.symm hd1))
            (by rw [show neighbor g2.size uc ur dA = (yc, yr) from hP]
                exact not_and_of_ne_pair hd5)]
          rw [hg2, mask_removeConnAt_of_ne g1 xc xr dxy vc vr (not_and_of_ne_pair hd4)
            (by rw [show neighbor g1.size xc xr dxy = (yc, yr) from hy]
                exact not_and_of_ne_pair hd5)]
          rw [hmv1]
        rw [doors_len_eq_of_mask_swap g g4 vc vr (opp duv) dB (hM vc hvc vr hvr)
          hmask hSv hhB]
        exact hD vc hvc vr hvr
      · by_cases hwx : w1 = xc ∧ w2 = xr
        · rw [hwx.1, hwx.2]
          have hbx : hasConn g xc xr (opp dB) = false := by
            have h := hS vc hvc vr hvr dB
            rw [hQ] at h
            exact h.symm.trans hhB
          have hmask : g4.mask xc xr =
              (g.mask xc xr &&& (255 ^^^ (1 <<< (dxy : Nat)))) |||
                (1 <<< ((opp dB) : Nat)) := by
            have h4x : g4.mask xc xr =
                g3.mask xc xr ||| (1 <<< ((opp dB) : Nat)) := by
              have h := mask_addConnAt_nbr g3 vc vr dB
                (by rw [show neighbor g3.size vc vr dB = (xc, xr) from hQ]
                    exact Ne.symm hd4)
              rw [show neighbor g3.size vc vr dB = (xc, xr) from hQ] at h
              rw [← hg4] at h
              exact h
            rw [h4x]
            rw [hg3, mask_addConnAt_of_ne g2 uc ur dA xc xr
              (not_and_of_ne_pair (Ne.symm hd2))
              (by rw [show neighbor g2.size uc ur dA = (yc, yr) from hP]
                  exact not_and_of_ne_pair hd6)]
            rw [hg2, mask_removeConnAt_self g1 xc xr dxy
              (by rw [show neighbor g1.size xc xr dxy = (yc, yr) from hy]
                  exact Ne.symm hd6)]
            rw [hg1, mask_removeConnAt_of_ne g uc ur duv xc xr
              (not_and_of_ne_pair (Ne.symm hd2))
              (by rw [hv]; exact not_and_of_ne_pair (Ne.symm hd4))]
          rw [doors_len_eq_of_mask_swap g g4 xc xr dxy (opp dB) (hM xc hx xr hxr)
            hmask hdxy hbx]
          exact hD xc hx xr hxr
        · by_cases hwy : w1 = yc ∧ w2 = yr
          · rw [hwy.1, hwy.2]
            have hby : hasConn g yc yr (opp dA) = false := by
              have h := hS uc hu ur hur dA
              rw [hP] at h
              exact h.symm.trans hhA
            have hmask : g4.mask yc yr =
                (g.mask yc yr &&& (255 ^^^ (1 <<< ((opp dxy) : Nat)))) |||
                  (1 <<< ((opp dA) : Nat)) := by
              rw [hg4, mask_addConnAt_of_ne g3 vc vr dB yc yr
                (not_and_of_ne_pair (Ne.symm hd5))
                (by rw [show neighbor g3.size vc vr dB = (xc, xr) from hQ]
                    exact not_and_of_ne_pair (Ne.symm hd6))]
              have h3y : g3.mask yc yr =
                  g2.mask yc yr ||| (1 <<< ((opp dA) : Nat)) := by
                have h := mask_addConnAt_nbr g2 uc ur dA
                  (by rw [show neighbor g2.size uc ur dA = (yc, yr) from hP]
                      exact Ne.symm hd3)
                rw [show neighbor g2.size uc ur dA = (yc, yr) from hP] at h
                rw [← hg3] at h
                exact h
              rw [h3y]
              rw [hmy2 (g1.mask yc yr) rfl]
              rw [hg1, mask_removeConnAt_of_ne g uc ur duv yc yr
                (not_and_of_ne_pair (Ne.symm hd3))
                (by rw [hv]; exact not_and_of_ne_pair (Ne.symm hd5))]
            rw [doors_len_eq_of_mask_swap g g4 yc yr (opp dxy) (opp dA)
              (hM yc hyc yr hyr) hmask hSy hby]
            exact hD yc hyc yr hyr
          · have hmask : g4.mask w1 w2 = g.mask w1 w2 := by
              rw [hg4, mask_addConnAt_of_ne g3 vc vr dB w1 w2 hwv
                (by rw [show neighbor g3.size vc vr dB = (xc, xr) from hQ]
                    exact hwx)]
              rw [hg3, mask_addConnAt_of_ne g2 uc ur dA w1 w2 hwu
                (by rw [show neighbor g2.size uc ur dA = (yc, yr) from hP]
                    exact hwy)]
              rw [hg2, mask_removeConnAt_of_ne g1 xc xr dxy w1 w2 hwx
                (by rw [show neighbor g1.size xc xr dxy = (yc, yr) from hy]
                    exact hwy)]
              rw [hg1, mask_removeConnAt_of_ne g uc ur duv w1 w2 hwu
                (by rw [hv]; exact hwv)]
            rw [doorsAt_congr g g4 w1 w2 hmask]
            exact hD w1 hw1 w2 hw2

/-- Witness for C10 on the size-5 vertical lattice at `(c, r) = (-3, 7)`. -/
theorem c10_ops_wrap_witness :
    0 < (resetToOrganized 5 "vertical").size ∧
    (hasConnection (resetToOrganized 5 "vertical") (-3) 7 1 =
      hasConnection (resetToOrganized 5 "vertical")
        ((wrap (resetToOrganized 5 "vertical").size (-3) : Nat) : Int)
        ((wrap (resetToOrganized 5 "vertical").size 7 : Nat) : Int) 1 ∧
    getCellDoors (resetToOrganized 5 "vertical") (-3) 7 =
      getCellDoors (resetToOrganized 5 "vertical")
        ((wrap (resetToOrganized 5 "vertical").size (-3) : Nat) : Int)
        ((wrap (resetToOrganized 5 "vertical").size 7 : Nat) : Int) ∧
    ((-(((resetToOrganized 5 "vertical").size : Nat) : Int) ≤ -3 ∧
        (-3 : Int) < (resetToOrganized 5 "vertical").size ∧
        -(((resetToOrganized 5 "vertical").size : Nat) : Int) ≤ 7 ∧
        (7 : Int) < (resetToOrganized 5 "vertical").size) →
      addConnectionArray (resetToOrganized 5 "vertical") (-3) 7 1 =
        some (addConnAt (resetToOrganized 5 "vertical")
          (wrap (resetToOrganized 5 "vertical").size (-3))
          (wrap (resetToOrganized 5 "vertical").size 7) 1) ∧
      removeConnectionArray (resetToOrganized 5 "vertical") (-3) 7 1 =
        some (removeConnAt (resetToOrganized 5 "vertical")
          (wrap (resetToOrganized 5 "vertical").size (-3))
          (wrap (resetToOrganized 5 "vertical").size 7) 1)) ∧
    ((((resetToOrganized 5 "vertical").size : Int) ≤ -3 ∨
        (-3 : Int) < -(((resetToOrganized 5 "vertical").size : Nat) : Int) ∨
        ((resetToOrganized 5 "vertical").size : Int) ≤ 7 ∨
        (7 : Int) < -(((resetToOrganized 5 "vertical").size : Nat) : Int)) →
      addConnectionArray (resetToOrganized 5 "vertical") (-3) 7 1 = none ∧
      removeConnectionArray (resetToOrganized 5 "vertical") (-3) 7 1 = none)) :=
  ⟨by decide, c10_ops_wrap (resetToOrganized 5 "vertical") (by decide) (-3) 7 1⟩


theorem getDirection_eq (size c1 r1 c2 r2 : Nat) (i : Fin 6)
    (h : getDirection size c1 r1 c2 r2 = some i) :
    neighbor size c1 r1 i = (c2, r2) := by
  unfold getDirection at h
  have h2 := List.find?_some h
  simpa using h2

theorem doorsAt_getD_hasConn (g : Grid) (c r i : Nat)
    (h : (doorsAt g c r).isEmpty = false) :
    hasConn g c r ((doorsAt g c r).getD (i % (doorsAt g c r).length) 0) = true := by
  have hne : doorsAt g c r ≠ [] := by simpa using h
  have hlen : 0 < (doorsAt g c r).length := List.length_pos.mpr hne
  have hlt : i % (doorsAt g c r).length < (doorsAt g c r).length := Nat.mod_lt _ hlen
  rw [List.getD_eq_getElem _ _ hlt]
  have hmem : (doorsAt g c r)[i % (doorsAt g c r).length] ∈ doorsAt g c r :=
    List.getElem_mem hlt
  unfold doorsAt at hmem
  exact (List.mem_filter.mp hmem).2

theorem swap_preserves (g g' : Grid) (he : g.size % 2 = 0) (h5 : 5 ≤ g.size)
    (hM : MaskOk g) (hS : Symm g) (hD : Deg2 g)
    (uc ur xc xr i0 i1 : Nat) (hu : uc < g.size) (hur : ur < g.size)
    (hx : xc < g.size) (hxr : xr < g.size)
    (hsw : performSwap g uc ur xc xr i0 i1 = some g') :
    g'.size = g.size ∧ MaskOk g' ∧ Symm g' ∧ Deg2 g' := by
  simp only [performSwap] at hsw
  split at hsw
  · exact absurd hsw (by simp)
  rename_i hne1
  split at hsw
  · exact absurd hsw (by simp)
  rename_i hne2
  split at hsw
  · exact absurd hsw (by simp)
  rename_i hdist
  push_neg at hdist
  obtain ⟨hd1, hd2, hd3, hd4, hd5, hd6⟩ := hdist
  have hne1' : (doorsAt g uc ur).isEmpty = false := Bool.eq_false_iff.mpr hne1
  have hne2' : (doorsAt g xc xr).isEmpty = false := Bool.eq_false_iff.mpr hne2
  have hduv : hasConn g uc ur
      ((doorsAt g uc ur).getD (i0 % (doorsAt g uc ur).length) 0) = true :=
    doorsAt_getD_hasConn g uc ur i0 hne1'
  have hdxy : hasConn g xc xr
      ((doorsAt g xc xr).getD (i1 % (doorsAt g xc xr).length) 0) = true :=
    doorsAt_getD_hasConn g xc xr i1 hne2'
  split at hsw
  case _ g'' heq =>
    split at heq
    case _ dux dvy hgd1 hgd2 =>
      split at heq
      case isTrue hcond =>
        have hg' : g' = addConnAt (addConnAt (removeConnAt (removeConnAt g uc ur
            ((doorsAt g uc ur).getD (i0 % (doorsAt g uc ur).length) 0)) xc xr
            ((doorsAt g xc xr).getD (i1 % (doorsAt g xc xr).length) 0)) uc ur dux)
            (neighbor g.size uc ur
              ((doorsAt g uc ur).getD (i0 % (doorsAt g uc ur).length) 0)).1
            (neighbor g.size uc ur
              ((doorsAt g uc ur).getD (i0 % (doorsAt g uc ur).length) 0)).2 dvy :=
          ((Option.some.inj heq).trans (Option.some.inj hsw)).symm
        have hres := rewire_preserves g he h5 hM hS hD uc ur xc xr
          (neighbor g.size uc ur
            ((doorsAt g uc ur).getD (i0 % (doorsAt g uc ur).length) 0)).1
          (neighbor g.size uc ur
            ((doorsAt g uc ur).getD (i0 % (doorsAt g uc ur).length) 0)).2
          (neighbor g.size xc xr
            ((doorsAt g xc xr).getD (i1 % (doorsAt g xc xr).length) 0)).1
          (neighbor g.size xc xr
            ((doorsAt g xc xr).getD (i1 % (doorsAt g xc xr).length) 0)).2
          hu hur hx hxr
          ((doorsAt g uc ur).getD (i0 % (doorsAt g uc ur).length) 0)
          ((doorsAt g xc xr).getD (i1 % (doorsAt g xc xr).length) 0)
          dux dvy rfl rfl hduv hdxy
          (Bool.eq_false_iff.mpr hcond.1) (Bool.eq_false_iff.mpr hcond.2)
          (Or.inl ⟨getDirection_eq _ _ _ _ _ _ hgd1, getDirection_eq _ _ _ _ _ _ hgd2⟩)
          hd1 hd2 hd3 hd4 hd5 hd6
        rw [hg']
        exact ⟨rfl, hres.1, hres.2.1, hres.2.2⟩
      case isFalse => exact absurd heq (by simp)
    case _ => exact absurd heq (by simp)
  case _ heq =>
    split at hsw
    case _ duy dvx hgd1 hgd2 =>
      split at hsw
      case isTrue hcond =>
        have hg' : g' = addConnAt (addConnAt (removeConnAt (removeConnAt g uc ur
            ((doorsAt g uc ur).getD (i0 % (doorsAt g uc ur).length) 0)) xc xr
            ((doorsAt g xc xr).getD (i1 % (doorsAt g xc xr).length) 0)) uc ur duy)
            (neighbor g.size uc ur
              ((doorsAt g uc ur).getD (i0 % (doorsAt g uc ur).length) 0)).1
            (neighbor g.size uc ur
              ((doorsAt g uc ur).getD (i0 % (doorsAt g uc ur).length) 0)).2 dvx :=
          (Option.some.inj hsw).symm
        have hres := rewire_preserves g he h5 hM hS hD uc ur xc xr
          (neighbor g.size uc ur
            ((doorsAt g uc ur).getD (i0 % (doorsAt g uc ur).length) 0)).1
          (neighbor g.size uc ur
            ((doorsAt g uc ur).getD (i0 % (doorsAt g uc ur).length) 0)).2
          (neighbor g.size xc xr
            ((doorsAt g xc xr).getD (i1 % (doorsAt g xc xr).length) 0)).1
          (neighbor g.size xc xr
            ((doorsAt g xc xr).getD (i1 % (doorsAt g xc xr).length) 0)).2
          hu hur hx hxr
          ((doorsAt g uc ur).getD (i0 % (doorsAt g uc ur).length) 0)
          ((doorsAt g xc xr).getD (i1 % (doorsAt g xc xr).length) 0)
          duy dvx rfl rfl hduv hdxy
          (Bool.eq_false_iff.mpr hcond.1) (Bool.eq_false_iff.mpr hcond.2)
          (Or.inr ⟨getDirection_eq _ _ _ _ _ _ hgd1, getDirection_eq _ _ _ _ _ _ hgd2⟩)
          hd1 hd2 hd3 hd4 hd5 hd6
        rw [hg']
        exact ⟨rfl, hres.1, hres.2.1, hres.2.2⟩
      case isFalse => exact absurd hsw (by simp)
    case _ => exact absurd hsw (by simp)

/-- Bit test of the zig-zag column masks against the mate bit at the
neighbor column (parity determined by the unwrapped offset). -/
theorem concentric_bits : ∀ (k : Fin 2) (d : Fin 6),
    Nat.testBit
      (if (k : Nat) = 0 then (1 <<< 1) ||| (1 <<< 5) else (1 <<< 2) ||| (1 <<< 4))
      (d : Nat) =
    Nat.testBit
      (if (((k : Nat) : Int) +
            (if (k : Nat) = 0 then evenColDirs d else oddColDirs d).1) % 2 = 0
        then (1 <<< 1) ||| (1 <<< 5) else (1 <<< 2) ||| (1 <<< 4))
      ((opp d) : Nat) := by decide

theorem inv_initVertical (size : Nat) :
    MaskOk (initVertical size) ∧ Symm (initVertical size) ∧ Deg2 (initVertical size) :=
  ⟨fun c _ r _ => by
      show ((1 <<< 0 : Nat) ||| (1 <<< 3)) < 64
      decide,
    fun c _ r _ d => by
      show Nat.testBit ((1 <<< 0) ||| (1 <<< 3)) (d : Nat) =
        Nat.testBit ((1 <<< 0) ||| (1 <<< 3)) ((opp d) : Nat)
      revert d
      decide,
    fun c _ r _ => by
      show ((List.finRange 6).filter fun (d : Fin 6) =>
        ((1 <<< 0 : Nat) ||| (1 <<< 3)).testBit (d : Nat)).length = 2
      decide⟩

theorem inv_initDiagonal1 (size : Nat) :
    MaskOk (initDiagonal1 size) ∧ Symm (initDiagonal1 size) ∧ Deg2 (initDiagonal1 size) :=
  ⟨fun c _ r _ => by
      show ((1 <<< 1 : Nat) ||| (1 <<< 4)) < 64
      decide,
    fun c _ r _ d => by
      show Nat.testBit ((1 <<< 1) ||| (1 <<< 4)) (d : Nat) =
        Nat.testBit ((1 <<< 1) ||| (1 <<< 4)) ((opp d) : Nat)
      revert d
      decide,
    fun c _ r _ => by
      show ((List.finRange 6).filter fun (d : Fin 6) =>
        ((1 <<< 1 : Nat) ||| (1 <<< 4)).testBit (d : Nat)).length = 2
      decide⟩

theorem inv_initDiagonal2 (size : Nat) :
    MaskOk (initDiagonal2 size) ∧ Symm (initDiagonal2 size) ∧ Deg2 (initDiagonal2 size) :=
  ⟨fun c _ r _ => by
      show ((1 <<< 2 : Nat) ||| (1 <<< 5)) < 64
      decide,
    fun c _ r _ d => by
      show Nat.testBit ((1 <<< 2) ||| (1 <<< 5)) (d : Nat) =
        Nat.testBit ((1 <<< 2) ||| (1 <<< 5)) ((opp d) : Nat)
      revert d
      decide,
    fun c _ r _ => by
      show ((List.finRange 6).filter fun (d : Fin 6) =>
        ((1 <<< 2 : Nat) ||| (1 <<< 5)).testBit (d : Nat)).length = 2
      decide⟩

theorem size_resetToOrganized (size : Nat) (pattern : String) :
    (resetToOrganized size pattern).size = size := by
  unfold resetToOrganized
  split_ifs <;> rfl

theorem maskOk_initConcentric (size : Nat) : MaskOk (initConcentric size) := by
  intro c _ r _
  by_cases h1 : size % 2 ≠ 0 ∧ c = size - 1
  · simp only [initConcentric, if_pos h1]
    decide
  · by_cases h2 : c % 2 = 0
    · simp only [initConcentric, if_neg h1, if_pos h2]
      decide
    · simp only [initConcentric, if_neg h1, if_neg h2]
      decide

theorem deg2_initConcentric (size : Nat) : Deg2 (initConcentric size) := by
  intro c _ r _
  by_cases h1 : size % 2 ≠ 0 ∧ c = size - 1
  · simp only [doorsAt, initConcentric, if_pos h1]
    decide
  · by_cases h2 : c % 2 = 0
    · simp only [doorsAt, initConcentric, if_neg h1, if_pos h2]
      decide
    · simp only [doorsAt, initConcentric, if_neg h1, if_neg h2]
      decide

theorem symm_initConcentric (size : Nat) (he : size % 2 = 0) (h0 : 0 < size) :
    Symm (initConcentric size) := by
  intro c hc r hr d
  have hnotodd : ∀ cc : Nat, ¬(size % 2 ≠ 0 ∧ cc = size - 1) := fun cc h => h.1 he
  have hmask : ∀ cc rr : Nat, (initConcentric size).mask cc rr =
      if cc % 2 = 0 then (1 <<< 1) ||| (1 <<< 5) else (1 <<< 2) ||| (1 <<< 4) := by
    intro cc rr
    show (if size % 2 ≠ 0 ∧ cc = size - 1 then (1 <<< 2) ||| (1 <<< 5)
      else if cc % 2 = 0 then (1 <<< 1) ||| (1 <<< 5) else (1 <<< 2) ||| (1 <<< 4)) = _
    rw [if_neg (hnotodd cc)]
  unfold hasConn
  rw [hmask, hmask]
  show Nat.testBit
      (if c % 2 = 0 then (1 <<< 1) ||| (1 <<< 5) else (1 <<< 2) ||| (1 <<< 4))
      (d : Nat) =
    Nat.testBit
      (if (wrap size ((c : Int) +
            (if c % 2 = 0 then evenColDirs d else oddColDirs d).1)) % 2 = 0
        then (1 <<< 1) ||| (1 <<< 5) else (1 <<< 2) ||| (1 <<< 4))
      ((opp d) : Nat)
  have hk := concentric_bits ⟨c % 2, Nat.mod_lt c (by norm_num)⟩ d
  rw [show (((⟨c % 2, Nat.mod_lt c (by norm_num)⟩ : Fin 2)) : Nat) = c % 2 from rfl] at hk
  set o : Int × Int := if c % 2 = 0 then evenColDirs d else oddColDirs d with ho
  have hcond : ((wrap size ((c : Int) + o.1)) % 2 = 0) ↔
      ((((c % 2 : Nat)) : Int) + o.1) % 2 = 0 := by
    rw [wrap_even_iff size he h0]
    omega
  rw [if_congr hcond rfl rfl]
  exact hk

/-- Every pattern of `reset_to_organized` establishes the three
invariants (the zig-zag seeder needs the even size for symmetry). -/
theorem reset_inv (size : Nat) (he : size % 2 = 0) (h0 : 0 < size) (pattern : String) :
    MaskOk (resetToOrganized size pattern) ∧ Symm (resetToOrganized size pattern) ∧
      Deg2 (resetToOrganized size pattern) := by
  unfold resetToOrganized
  split_ifs
  · exact inv_initVertical size
  · exact inv_initDiagonal1 size
  · exact inv_initDiagonal2 size
  · exact ⟨maskOk_initConcentric size, symm_initConcentric size he h0,
      deg2_initConcentric size⟩
  · exact inv_initVertical size

/-- The master invariant: on an even lattice size of at least 5, every
reachable state keeps 6-bit masks, symmetry and degree 2. -/
theorem reachable_inv (size : Nat) (he : size % 2 = 0) (h5 : 5 ≤ size)
    (g : Grid) (hg : Reachable size g) :
    g.size = size ∧ MaskOk g ∧ Symm g ∧ Deg2 g := by
  induction hg with
  | reset pattern =>
    have h := reset_inv size he (by omega) pattern
    exact ⟨size_resetToOrganized size pattern, h.1, h.2.1, h.2.2⟩
  | swap uc ur xc xr i0 i1 hu hur hx hxr hreach hsw ih =>
    obtain ⟨hsz, hM, hS, hD⟩ := ih
    have h := swap_preserves _ _ (by rw [hsz]; exact he) (by rw [hsz]; exact h5)
      hM hS hD uc ur xc xr i0 i1 (by rw [hsz]; exact hu) (by rw [hsz]; exact hur)
      (by rw [hsz]; exact hx) (by rw [hsz]; exact hxr) hsw
    exact ⟨h.1.trans hsz, h.2.1, h.2.2.1, h.2.2.2⟩

/-! ### Claims C1 and C3: the reachable-state invariants -/

/-- The size-5 vertical lattice after one successful swap across the
odd-size wrap seam (`u = (0,0)` via its N door, `x = (4,0)` via its N
door, rewired through pairing B into NE/SW edges). -/
def cex1 : Grid :=
  (performSwap (resetToOrganized 5 "vertical") 0 0 4 0 0 0).getD
    (resetToOrganized 5 "vertical")

/-- One further successful swap on `cex1` (`u = (4,1)`, `x = (0,0)`):
it consumes the half-door left dangling by the broken mate pairing and
drives cell `(0,0)` to a single door. -/
def cex2 : Grid :=
  (performSwap cex1 4 1 0 0 1 0).getD cex1

/-- C1, counterexample: at the odd size 5 (which is in `[5, 200]`), the
state after `reset("vertical")` and two successful swaps is reachable,
yet cell `(0, 0)` has exactly one door — its 6-bit mask has popcount 1,
not 2.  The round-trip failure of the odd-size wrap makes the paired
bit writes of the swap asymmetric, and a later swap then removes a door
that has no mate. -/
theorem c1_degree_two_counterexample :
    Reachable 5 cex2 ∧ 5 ≤ 5 ∧ 5 ≤ 200 ∧ 0 < cex2.size ∧
      (doorsAt cex2 0 0).length = 1 := by
  refine ⟨?_, by decide, by decide, by decide, by decide⟩
  exact Reachable.swap 4 1 0 0 1 0 (by decide) (by decide) (by decide) (by decide)
    (Reachable.swap 0 0 4 0 0 0 (by decide) (by decide) (by decide) (by decide)
      (Reachable.reset "vertical") rfl) rfl

/-- C1, amended to even lattice sizes: for every even size in
`[5, 200]`, after `reset_to_organized` with any pattern string followed
by any sequence of successful `perform_swap_vectorized` calls (sampled
cell coordinates in `[0, size)`, arbitrary door indices), every cell of
the lattice has exactly two doors set. -/
theorem c1_degree_two (size : Nat) (heven : size % 2 = 0) (h5 : 5 ≤ size)
    (h200 : size ≤ 200) (g : Grid) (hg : Reachable size g) : Deg2 g :=
  (reachable_inv size heven h5 g hg).2.2.2

/-- Witness for C1: the freshly reset size-6 vertical lattice. -/
theorem c1_degree_two_witness :
    6 % 2 = 0 ∧ 5 ≤ 6 ∧ 6 ≤ 200 ∧ Deg2 (resetToOrganized 6 "vertical") :=
  ⟨rfl, by decide, by decide,
    c1_degree_two 6 rfl (by decide) (by decide) _ (Reachable.reset "vertical")⟩

/-- C3, counterexample: `cex1` is reachable at size 5 (one successful
swap after a vertical reset), but symmetry is broken: cell `(4, 1)` has
no NE door while its NE neighbor `(0, 0)` does have the mated SW door. -/
theorem c3_symmetry_counterexample :
    Reachable 5 cex1 ∧ 5 ≤ 5 ∧ 5 ≤ 200 ∧ 4 < cex1.size ∧ 1 < cex1.size ∧
      hasConn cex1 4 1 1 ≠
        hasConn cex1 (neighbor cex1.size 4 1 1).1 (neighbor cex1.size 4 1 1).2
          (opp 1) := by
  refine ⟨?_, by decide, by decide, by decide, by decide, by decide⟩
  exact Reachable.swap 0 0 4 0 0 0 (by decide) (by decide) (by decide) (by decide)
    (Reachable.reset "vertical") rfl

/-- C3, amended to even lattice sizes: for every reachable state of an
even lattice size in `[5, 200]`, every in-range cell `u` and direction
`d` satisfy `has(u, d) = has(neighbor(u, d), opp d)`. -/
theorem c3_symmetry (size : Nat) (heven : size % 2 = 0) (h5 : 5 ≤ size)
    (h200 : size ≤ 200) (g : Grid) (hg : Reachable size g) : Symm g :=
  (reachable_inv size heven h5 g hg).2.2.1

/-- Witness for C3: the freshly reset size-6 vertical lattice. -/
theorem c3_symmetry_witness :
    6 % 2 = 0 ∧ 5 ≤ 6 ∧ 6 ≤ 200 ∧ Symm (resetToOrganized 6 "vertical") :=
  ⟨rfl, by decide, by decide,
    c3_symmetry 6 rfl (by decide) (by decide) _ (Reachable.reset "vertical")⟩


end BabelSim
namespace BabelSim

/-- The backtrack filter of `_find_loops_numba`: a door is taken unless
its neighbor is the cell we came from (`prev_c >= 0 and nc == prev_c and
nr == prev_r`; the sentinel `-1` is `none`). -/
def backOk (size : Nat) (c : Nat × Nat) (prev : Option (Nat × Nat)) (d : Fin 6) : Bool :=
  match prev with
  | none => true
  | some p => decide (neighbor size c.1 c.2 d ≠ p)

/-- The inner traversal of `_find_loops_numba`, one recursive step per
iteration of its bounded `for` loop (`fuel` starts at `size*size + 1`).
Hitting a visited cell keeps the accumulated loop exactly when it closed
back at the start; every other exit discards it (`loop_len = 0`), but
the visited marks persist. -/
def walkNumba (g : Grid) (start : Nat × Nat) :
    Nat → (Nat × Nat) → Option (Nat × Nat) → (Nat → Nat → Bool) → List (Nat × Nat) →
      ((Nat → Nat → Bool) × List (Nat × Nat))
  | 0, _, _, visited, acc => (visited, acc)
  | fuel + 1, curr, prev, visited, acc =>
    if visited curr.1 curr.2 then
      if curr = start ∧ ¬acc.isEmpty then (visited, acc) else (visited, [])
    else
      let visited' := fun c r => if c = curr.1 ∧ r = curr.2 then true else visited c r
      let acc' := acc ++ [curr]
      let doors := doorsAt g curr.1 curr.2
      if doors.isEmpty then (visited', [])
      else
        match doors.find? (backOk g.size curr prev) with
        | none => (visited', [])
        | some d =>
          walkNumba g start fuel (neighbor g.size curr.1 curr.2 d) (some curr)
            visited' acc'

/-- `_find_loops_numba`: scan all cells (`start_c` outer, `start_r`
inner), walk each unvisited one, and keep the nonempty loops. -/
def findLoopsNumba (g : Grid) : List (List (Nat × Nat)) :=
  ((((List.range g.size).map fun c =>
      (List.range g.size).map fun r => (c, r)).flatten).foldl
    (fun st s =>
      if st.1 s.1 s.2 then st
      else
        let res := walkNumba g s (g.size * g.size + 1) s none st.1 []
        (res.1, if res.2.isEmpty then st.2 else st.2 ++ [res.2]))
    ((fun _ _ => false), [])).2

/-- The inner traversal of the Python fallback in `find_loops`: a
`while True` loop whose every `break` keeps the accumulated cells.  Each
iteration either breaks or marks a fresh in-range cell, so at most
`size*size + 1` iterations ever run; the fuel (instantiated with that
bound) is therefore never exhausted, and the fuel-0 value mirrors the
keep-on-break behavior. -/
def walkPy (g : Grid) :
    Nat → (Nat × Nat) → Option (Nat × Nat) → (Nat → Nat → Bool) → List (Nat × Nat) →
      ((Nat → Nat → Bool) × List (Nat × Nat))
  | 0, _, _, visited, acc => (visited, acc)
  | fuel + 1, curr, prev, visited, acc =>
    if visited curr.1 curr.2 then (visited, acc)
    else
      let visited' := fun c r => if c = curr.1 ∧ r = curr.2 then true else visited c r
      let acc' := acc ++ [curr]
      let doors := doorsAt g curr.1 curr.2
      if doors.isEmpty then (visited', acc')
      else
        let n0 := neighbor g.size curr.1 curr.2 (doors.headD 0)
        match prev with
        | some p =>
          if n0 = p then
            if 1 < doors.length then
              walkPy g fuel (neighbor g.size curr.1 curr.2 (doors.getD 1 0)) (some curr)
                visited' acc'
            else (visited', acc')
          else walkPy g fuel n0 (some curr) visited' acc'
        | none => walkPy g fuel n0 (some curr) visited' acc'

/-- The Python fallback path of `HexGrid.find_loops`: same scan order,
but every finished walk is kept (`loop_idx > 0` always holds). -/
def findLoopsPy (g : Grid) : List (List (Nat × Nat)) :=
  ((((List.range g.size).map fun c =>
      (List.range g.size).map fun r => (c, r)).flatten).foldl
    (fun st s =>
      if st.1 s.1 s.2 then st
      else
        let res := walkPy g (g.size * g.size + 1) s none st.1 []
        (res.1, if res.2.isEmpty then st.2 else st.2 ++ [res.2]))
    ((fun _ _ => false), [])).2

end BabelSim
namespace BabelSim

/-! ### Loop extraction: shared traversal theory

Both cycle extractors walk the door graph the same way: from `curr`
with predecessor `prev`, take the first door (ascending) whose
neighbor is not `prev`.  `stepN` is that step; `traj` iterates it from
a start cell (with the artificial initial predecessor `s` itself,
which no door-neighbor can equal). -/

def stepN (g : Grid) (p c : Nat × Nat) : Nat × Nat :=
  match (doorsAt g c.1 c.2).find? (fun d => decide (neighbor g.size c.1 c.2 d ≠ p)) with
  | some d => neighbor g.size c.1 c.2 d
  | none => c

def traj (g : Grid) (s : Nat × Nat) : Nat → (Nat × Nat) × (Nat × Nat)
  | 0 => (s, s)
  | n + 1 => ((traj g s n).2, stepN g (traj g s n).1 (traj g s n).2)

def wtraj (g : Grid) (s : Nat × Nat) (n : Nat) : Nat × Nat :=
  (traj g s n).2

/-- `p` opens a door onto `c`. -/
def Edge (g : Grid) (p c : Nat × Nat) : Prop :=
  ∃ d : Fin 6, hasConn g p.1 p.2 d = true ∧ neighbor g.size p.1 p.2 d = c

theorem mem_doorsAt (g : Grid) (c r : Nat) (d : Fin 6) :
    d ∈ doorsAt g c r ↔ hasConn g c r d = true := by
  simp [doorsAt, List.mem_filter, List.mem_finRange, hasConn]

theorem doorsAt_two (g : Grid) (hd : Deg2 g) (c r : Nat)
    (hc : c < g.size) (hr : r < g.size) :
    ∃ a b : Fin 6, a ≠ b ∧ doorsAt g c r = [a, b] := by
  have hlen := hd c hc r hr
  have hnd : (doorsAt g c r).Nodup := (List.nodup_finRange 6).filter _
  cases hl : doorsAt g c r with
  | nil => rw [hl] at hlen; simp at hlen
  | cons a t =>
    cases t with
    | nil => rw [hl] at hlen; simp at hlen
    | cons b t2 =>
      cases t2 with
      | nil =>
        rw [hl] at hnd
        refine ⟨a, b, ?_, rfl⟩
        intro hab
        rw [hab] at hnd
        simp at hnd
      | cons e t3 => rw [hl] at hlen; simp at hlen

theorem neighbor_inr (size : Nat) (h0 : 0 < size) (c r : Nat) (d : Fin 6) :
    (neighbor size c r d).1 < size ∧ (neighbor size c r d).2 < size := by
  unfold neighbor
  exact ⟨wrap_lt size h0 _, wrap_lt size h0 _⟩

theorem edge_inr (g : Grid) (h0 : 0 < g.size) (p c : Nat × Nat)
    (he : Edge g p c) : c.1 < g.size ∧ c.2 < g.size := by
  obtain ⟨d, _, hn⟩ := he
  rw [← hn]
  exact neighbor_inr g.size h0 p.1 p.2 d

theorem edge_symm (g : Grid) (he2 : g.size % 2 = 0) (h0 : 0 < g.size)
    (hs : Symm g) (p c : Nat × Nat) (hp1 : p.1 < g.size) (hp2 : p.2 < g.size)
    (he : Edge g p c) : Edge g c p := by
  obtain ⟨d, hcd, hn⟩ := he
  refine ⟨opp d, ?_, ?_⟩
  · have h := hs p.1 hp1 p.2 hp2 d
    rw [hn] at h
    rw [← h]
    exact hcd
  · have hr := neighbor_roundtrip g.size he2 h0 p.1 p.2 hp1 hp2 d
    rw [hn] at hr
    rw [hr]

theorem edge_ne (g : Grid) (h3 : 3 ≤ g.size) (c x : Nat × Nat)
    (hc1 : c.1 < g.size) (hc2 : c.2 < g.size) (he : Edge g c x) : x ≠ c := by
  obtain ⟨d, _, hn⟩ := he
  intro heq
  exact neighbor_ne_self g.size h3 c.1 c.2 hc1 hc2 d (by rw [hn, heq])

theorem edge_cases (g : Grid) (c : Nat × Nat) (a b : Fin 6)
    (hpair : doorsAt g c.1 c.2 = [a, b]) (x : Nat × Nat) (he : Edge g c x) :
    x = neighbor g.size c.1 c.2 a ∨ x = neighbor g.size c.1 c.2 b := by
  obtain ⟨d, hcd, hn⟩ := he
  have hdmem : d ∈ doorsAt g c.1 c.2 := (mem_doorsAt g c.1 c.2 d).mpr hcd
  rw [hpair] at hdmem
  simp at hdmem
  rcases hdmem with rfl | rfl
  · exact Or.inl hn.symm
  · exact Or.inr hn.symm

theorem find?_pair_pos {α : Type} (p : α → Bool) (a b : α) (h : p a = true) :
    List.find? p [a, b] = some a := by
  simp [List.find?, h]

theorem find?_pair_neg {α : Type} (p : α → Bool) (a b : α) (h : p a = false)
    (h2 : p b = true) : List.find? p [a, b] = some b := by
  simp [List.find?, h, h2]

theorem stepN_find (g : Grid) (h3 : 3 ≤ g.size) (hd : Deg2 g) (p c : Nat × Nat)
    (hc1 : c.1 < g.size) (hc2 : c.2 < g.size) :
    ∃ d : Fin 6,
      (doorsAt g c.1 c.2).find?
          (fun d => decide (neighbor g.size c.1 c.2 d ≠ p)) = some d ∧
        neighbor g.size c.1 c.2 d = stepN g p c := by
  obtain ⟨a, b, hab, hpair⟩ := doorsAt_two g hd c.1 c.2 hc1 hc2
  have hna_nb : neighbor g.size c.1 c.2 a ≠ neighbor g.size c.1 c.2 b :=
    fun h => hab (neighbor_dir_inj g.size h3 c.1 c.2 hc1 hc2 a b h)
  by_cases ha : neighbor g.size c.1 c.2 a ≠ p
  · have hfind := find?_pair_pos (fun d => decide (neighbor g.size c.1 c.2 d ≠ p))
      a b (decide_eq_true ha)
    refine ⟨a, by rw [hpair]; exact hfind, ?_⟩
    unfold stepN
    rw [hpair, hfind]
  · push_neg at ha
    have hb : neighbor g.size c.1 c.2 b ≠ p := by
      rw [← ha]
      exact fun h => hna_nb h.symm
    have hfind := find?_pair_neg (fun d => decide (neighbor g.size c.1 c.2 d ≠ p))
      a b (by simp [ha]) (decide_eq_true hb)
    refine ⟨b, by rw [hpair]; exact hfind, ?_⟩
    unfold stepN
    rw [hpair, hfind]

theorem stepN_spec (g : Grid) (h3 : 3 ≤ g.size) (hd : Deg2 g) (p c : Nat × Nat)
    (hc1 : c.1 < g.size) (hc2 : c.2 < g.size) :
    Edge g c (stepN g p c) ∧ stepN g p c ≠ p ∧ stepN g p c ≠ c := by
  obtain ⟨d, hfind, hnbr⟩ := stepN_find g h3 hd p c hc1 hc2
  have hdmem : d ∈ doorsAt g c.1 c.2 := List.mem_of_find?_eq_some hfind
  have hpred := List.find?_some hfind
  have hne : neighbor g.size c.1 c.2 d ≠ p := of_decide_eq_true hpred
  refine ⟨⟨d, (mem_doorsAt g c.1 c.2 d).mp hdmem, hnbr⟩, ?_, ?_⟩
  · rw [← hnbr]
    exact hne
  · intro h
    exact neighbor_ne_self g.size h3 c.1 c.2 hc1 hc2 d (by rw [hnbr, h])

theorem wtraj_zero (g : Grid) (s : Nat × Nat) : wtraj g s 0 = s := rfl

theorem traj_fst_succ (g : Grid) (s : Nat × Nat) (n : Nat) :
    (traj g s (n + 1)).1 = wtraj g s n := rfl

theorem wtraj_succ (g : Grid) (s : Nat × Nat) (n : Nat) :
    wtraj g s (n + 1) = stepN g (traj g s n).1 (wtraj g s n) := rfl

theorem wtraj_inr (g : Grid) (h3 : 3 ≤ g.size) (hd : Deg2 g) (s : Nat × Nat)
    (hs1 : s.1 < g.size) (hs2 : s.2 < g.size) :
    ∀ n, (wtraj g s n).1 < g.size ∧ (wtraj g s n).2 < g.size
  | 0 => ⟨hs1, hs2⟩
  | n + 1 => by
    have ih := wtraj_inr g h3 hd s hs1 hs2 n
    have hsp := stepN_spec g h3 hd (traj g s n).1 (wtraj g s n) ih.1 ih.2
    exact edge_inr g (by omega) _ _ hsp.1

theorem traj_edge (g : Grid) (h3 : 3 ≤ g.size) (hd : Deg2 g) (s : Nat × Nat)
    (hs1 : s.1 < g.size) (hs2 : s.2 < g.size) (n : Nat) :
    Edge g (wtraj g s n) (wtraj g s (n + 1)) :=
  (stepN_spec g h3 hd (traj g s n).1 (wtraj g s n)
    (wtraj_inr g h3 hd s hs1 hs2 n).1 (wtraj_inr g h3 hd s hs1 hs2 n).2).1

theorem wtraj_succ_ne_prev (g : Grid) (h3 : 3 ≤ g.size) (hd : Deg2 g)
    (s : Nat × Nat) (hs1 : s.1 < g.size) (hs2 : s.2 < g.size) (n : Nat) :
    wtraj g s (n + 1) ≠ (traj g s n).1 :=
  (stepN_spec g h3 hd (traj g s n).1 (wtraj g s n)
    (wtraj_inr g h3 hd s hs1 hs2 n).1 (wtraj_inr g h3 hd s hs1 hs2 n).2).2.1

theorem wtraj_succ_ne (g : Grid) (h3 : 3 ≤ g.size) (hd : Deg2 g)
    (s : Nat × Nat) (hs1 : s.1 < g.size) (hs2 : s.2 < g.size) (n : Nat) :
    wtraj g s (n + 1) ≠ wtraj g s n :=
  (stepN_spec g h3 hd (traj g s n).1 (wtraj g s n)
    (wtraj_inr g h3 hd s hs1 hs2 n).1 (wtraj_inr g h3 hd s hs1 hs2 n).2).2.2

theorem wtraj_one_ne (g : Grid) (h3 : 3 ≤ g.size) (hd : Deg2 g)
    (s : Nat × Nat) (hs1 : s.1 < g.size) (hs2 : s.2 < g.size) :
    wtraj g s 1 ≠ s :=
  wtraj_succ_ne_prev g h3 hd s hs1 hs2 0

theorem wtraj_two_ne (g : Grid) (h3 : 3 ≤ g.size) (hd : Deg2 g)
    (s : Nat × Nat) (hs1 : s.1 < g.size) (hs2 : s.2 < g.size) (n : Nat) :
    wtraj g s (n + 2) ≠ wtraj g s n :=
  wtraj_succ_ne_prev g h3 hd s hs1 hs2 (n + 1)

end BabelSim
namespace BabelSim

/-- In a symmetric degree-2 lattice of even size the canonical walk
returns to its start: there is an `L` in `[1, size*size]` with
`wtraj g s L = s` and the first `L` cells pairwise distinct.  The first
repeated cell must be the start, because a repeat elsewhere would give
the repeated cell a predecessor pair forcing an earlier repeat. -/
theorem traj_closes (g : Grid) (he2 : g.size % 2 = 0) (h5 : 5 ≤ g.size)
    (hs : Symm g) (hd : Deg2 g) (s : Nat × Nat)
    (hs1 : s.1 < g.size) (hs2 : s.2 < g.size) :
    ∃ L, 1 ≤ L ∧ L ≤ g.size * g.size ∧ wtraj g s L = s ∧
      ∀ i, i < L → ∀ j, j < L → wtraj g s i = wtraj g s j → i = j := by
  have h3 : 3 ≤ g.size := by omega
  have h0 : 0 < g.size := by omega
  have hinr := wtraj_inr g h3 hd s hs1 hs2
  -- pigeonhole: among the first `size*size + 1` cells two coincide
  have hcard : Fintype.card (Fin g.size × Fin g.size) <
      Fintype.card (Fin (g.size * g.size + 1)) := by
    simp [Fintype.card_prod]
  obtain ⟨u, v, huv, hfuv⟩ := Fintype.exists_ne_map_eq_of_card_lt
    (fun n : Fin (g.size * g.size + 1) =>
      ((⟨(wtraj g s (n : Nat)).1, (hinr (n : Nat)).1⟩ : Fin g.size),
       (⟨(wtraj g s (n : Nat)).2, (hinr (n : Nat)).2⟩ : Fin g.size))) hcard
  have hww0 : wtraj g s (u : Nat) = wtraj g s (v : Nat) := by
    have h1 := congrArg (fun x => ((x.1 : Nat), (x.2 : Nat))) hfuv
    simpa using h1
  have hP : ∃ j, ∃ i, i < j ∧ wtraj g s i = wtraj g s j := by
    rcases Nat.lt_or_ge (u : Nat) (v : Nat) with h | h
    · exact ⟨v, u, h, hww0⟩
    · have : (v : Nat) < (u : Nat) := by
        rcases Nat.lt_or_ge (v : Nat) (u : Nat) with h2 | h2
        · exact h2
        · exact absurd (Fin.ext (by omega)) huv
      exact ⟨u, v, this, hww0.symm⟩
  have hPdec : DecidablePred fun j => ∃ i, i < j ∧ wtraj g s i = wtraj g s j :=
    fun _ => Classical.dec _
  let jm := @Nat.find _ hPdec hP
  have hjm : ∃ i, i < jm ∧ wtraj g s i = wtraj g s jm := @Nat.find_spec _ hPdec hP
  have hmin : ∀ k, k < jm → ¬ ∃ i, i < k ∧ wtraj g s i = wtraj g s k :=
    fun k hk => @Nat.find_min _ hPdec hP k hk
  have hjmle : jm ≤ g.size * g.size := by
    have hb : jm ≤ max (u : Nat) (v : Nat) := by
      rcases Nat.lt_or_ge (u : Nat) (v : Nat) with h | h
      · exact le_trans (@Nat.find_min' _ hPdec hP _ ⟨u, h, hww0⟩) (le_max_right _ _)
      · have hvu : (v : Nat) < (u : Nat) := by
          rcases Nat.lt_or_ge (v : Nat) (u : Nat) with h2 | h2
          · exact h2
          · exact absurd (Fin.ext (by omega)) huv
        exact le_trans (@Nat.find_min' _ hPdec hP _ ⟨v, hvu, hww0.symm⟩)
          (le_max_left _ _)
    have hu : (u : Nat) ≤ g.size * g.size := by omega
    have hv : (v : Nat) ≤ g.size * g.size := by omega
    omega
  obtain ⟨i, hij, hww⟩ := hjm
  have hinj : ∀ a, a < jm → ∀ b, b < jm → wtraj g s a = wtraj g s b → a = b := by
    intro a ha b hb hab
    by_contra hne
    rcases Nat.lt_or_ge a b with h | h
    · exact hmin b hb ⟨a, h, hab⟩
    · have : b < a := by omega
      exact hmin a ha ⟨b, this, hab.symm⟩
  have hi0 : i = 0 := by
    by_contra hi0
    have hi1 : 1 ≤ i := by omega
    -- the repeated cell and its two predecessors
    have hc1 : (wtraj g s i).1 < g.size := (hinr i).1
    have hc2 : (wtraj g s i).2 < g.size := (hinr i).2
    obtain ⟨a, b, hab, hpair⟩ := doorsAt_two g hd (wtraj g s i).1 (wtraj g s i).2 hc1 hc2
    have hq1e : Edge g (wtraj g s (i - 1)) (wtraj g s i) := by
      have h := traj_edge g h3 hd s hs1 hs2 (i - 1)
      rw [show i - 1 + 1 = i by omega] at h
      exact h
    have hq2e : Edge g (wtraj g s (jm - 1)) (wtraj g s jm) := by
      have h := traj_edge g h3 hd s hs1 hs2 (jm - 1)
      rw [show jm - 1 + 1 = jm by omega] at h
      exact h
    rw [← hww] at hq2e
    have hq1r : Edge g (wtraj g s i) (wtraj g s (i - 1)) :=
      edge_symm g he2 h0 hs _ _ (hinr (i - 1)).1 (hinr (i - 1)).2 hq1e
    have hq2r : Edge g (wtraj g s i) (wtraj g s (jm - 1)) :=
      edge_symm g he2 h0 hs _ _ (hinr (jm - 1)).1 (hinr (jm - 1)).2 hq2e
    have hq1m := edge_cases g _ a b hpair _ hq1r
    have hq2m := edge_cases g _ a b hpair _ hq2r
    by_cases hq : wtraj g s (i - 1) = wtraj g s (jm - 1)
    · exact hmin (jm - 1) (by omega) ⟨i - 1, by omega, hq⟩
    · -- the walk continues to the *other* door-neighbor, which is the
      -- predecessor of the later visit
      have hstep : wtraj g s (i + 1) = stepN g (wtraj g s (i - 1)) (wtraj g s i) := by
        have h := wtraj_succ g s i
        have hfst : (traj g s i).1 = wtraj g s (i - 1) := by
          have h2 := traj_fst_succ g s (i - 1)
          rw [show i - 1 + 1 = i by omega] at h2
          exact h2
        rw [hfst] at h
        exact h
      have hsp := stepN_spec g h3 hd (wtraj g s (i - 1)) (wtraj g s i) hc1 hc2
      have hsm := edge_cases g _ a b hpair _ hsp.1
      have hsq2 : wtraj g s (i + 1) = wtraj g s (jm - 1) := by
        rw [hstep]
        rcases hq1m with h1 | h1 <;> rcases hq2m with h2 | h2 <;>
          rcases hsm with h3' | h3' <;>
          first
            | (exfalso; exact hq (h1.trans h2.symm))
            | (exfalso; exact hsp.2.1 (h3'.trans h1.symm))
            | (rw [h3', ← h2])
      rcases Nat.lt_trichotomy (i + 1) (jm - 1) with hlt | heq | hgt
      · exact hmin (jm - 1) (by omega) ⟨i + 1, hlt, hsq2⟩
      · have hjm2 : jm = i + 2 := by omega
        have h := wtraj_two_ne g h3 hd s hs1 hs2 i
        rw [← hjm2, hww] at h
        exact h rfl
      · have hieq : i = jm - 1 := by omega
        have : wtraj g s (jm - 1) ≠ wtraj g s i :=
          edge_ne g h3 _ _ hc1 hc2 hq2r
        rw [← hieq] at this
        exact this rfl
  refine ⟨jm, by omega, hjmle, ?_, hinj⟩
  rw [← hww, hi0]
  exact wtraj_zero g s

end BabelSim
namespace BabelSim

/-- A closed walk orbit is door-closed: every door of an orbit cell
leads back into the orbit (to the cyclic successor or predecessor). -/
theorem orbit_closed (g : Grid) (he2 : g.size % 2 = 0) (h5 : 5 ≤ g.size)
    (hs : Symm g) (hd : Deg2 g) (s : Nat × Nat)
    (hs1 : s.1 < g.size) (hs2 : s.2 < g.size) (L : Nat) (hL1 : 1 ≤ L)
    (hLs : wtraj g s L = s)
    (hinj : ∀ i, i < L → ∀ j, j < L → wtraj g s i = wtraj g s j → i = j) :
    ∀ m, m < L → ∀ x, Edge g (wtraj g s m) x → ∃ k, k < L ∧ wtraj g s k = x := by
  have h3 : 3 ≤ g.size := by omega
  have h0 : 0 < g.size := by omega
  have hinr := wtraj_inr g h3 hd s hs1 hs2
  have hL3 : 3 ≤ L := by
    rcases Nat.lt_or_ge L 3 with h | h
    · exfalso
      interval_cases L
      · exact wtraj_one_ne g h3 hd s hs1 hs2 hLs
      · exact wtraj_two_ne g h3 hd s hs1 hs2 0 (hLs.trans (wtraj_zero g s).symm)
    · exact h
  intro m hm x hx
  obtain ⟨a, b, hab, hpair⟩ :=
    doorsAt_two g hd (wtraj g s m).1 (wtraj g s m).2 (hinr m).1 (hinr m).2
  -- the cyclic successor
  have hsucc : Edge g (wtraj g s m) (wtraj g s (m + 1)) :=
    traj_edge g h3 hd s hs1 hs2 m
  -- the cyclic predecessor: `w (L-1)` for `m = 0`, else `w (m-1)`
  have hpred : Edge g (if m = 0 then wtraj g s (L - 1) else wtraj g s (m - 1))
      (wtraj g s m) := by
    by_cases hm0 : m = 0
    · rw [if_pos hm0, hm0]
      have h := traj_edge g h3 hd s hs1 hs2 (L - 1)
      rw [show L - 1 + 1 = L by omega, hLs] at h
      exact h
    · rw [if_neg hm0]
      have h := traj_edge g h3 hd s hs1 hs2 (m - 1)
      rw [show m - 1 + 1 = m by omega] at h
      exact h
  set pm := if m = 0 then wtraj g s (L - 1) else wtraj g s (m - 1) with hpm
  have hpm_inr : pm.1 < g.size ∧ pm.2 < g.size := by
    by_cases hm0 : m = 0 <;> simp [hpm, hm0] <;>
      exact ⟨(hinr _).1, (hinr _).2⟩
  have hpredr : Edge g (wtraj g s m) pm :=
    edge_symm g he2 h0 hs _ _ hpm_inr.1 hpm_inr.2 hpred
  -- successor and predecessor are distinct
  have hne : wtraj g s (m + 1) ≠ pm := by
    by_cases hm0 : m = 0
    · rw [hpm, if_pos hm0, hm0]
      intro h
      have h1L : (1 : Nat) = L - 1 :=
        hinj 1 (by omega) (L - 1) (by omega) h
      omega
    · rw [hpm, if_neg hm0]
      have h := wtraj_two_ne g h3 hd s hs1 hs2 (m - 1)
      rw [show m - 1 + 2 = m + 1 by omega] at h
      exact h
  have hsm := edge_cases g _ a b hpair _ hsucc
  have hpmm := edge_cases g _ a b hpair _ hpredr
  have hxm := edge_cases g _ a b hpair _ hx
  have hxor : x = wtraj g s (m + 1) ∨ x = pm := by
    rcases hsm with h1 | h1 <;> rcases hpmm with h2 | h2 <;>
      rcases hxm with h3' | h3' <;>
      first
        | (exfalso; exact hne (h1.trans h2.symm))
        | (exact Or.inl (h3'.trans h1.symm))
        | (exact Or.inr (h3'.trans h2.symm))
  rcases hxor with rfl | rfl
  · by_cases hmL : m + 1 = L
    · refine ⟨0, by omega, ?_⟩
      rw [hmL, hLs]
      exact wtraj_zero g s
    · exact ⟨m + 1, by omega, rfl⟩
  · by_cases hm0 : m = 0
    · exact ⟨L - 1, by omega, by rw [hpm, if_pos hm0]⟩
    · exact ⟨m - 1, by omega, by rw [hpm, if_neg hm0]⟩

end BabelSim
namespace BabelSim

theorem backOk_none (size : Nat) (c : Nat × Nat) :
    backOk size c none = fun _ => true := rfl

theorem backOk_some (size : Nat) (c p : Nat × Nat) :
    backOk size c (some p) = fun d => decide (neighbor size c.1 c.2 d ≠ p) := rfl

theorem stepN_eq_fst (g : Grid) (p c : Nat × Nat) (a b : Fin 6)
    (hpair : doorsAt g c.1 c.2 = [a, b]) (ha : neighbor g.size c.1 c.2 a ≠ p) :
    stepN g p c = neighbor g.size c.1 c.2 a := by
  unfold stepN
  rw [hpair, find?_pair_pos (fun d => decide (neighbor g.size c.1 c.2 d ≠ p))
    a b (decide_eq_true ha)]

theorem stepN_eq_snd (g : Grid) (p c : Nat × Nat) (a b : Fin 6)
    (hpair : doorsAt g c.1 c.2 = [a, b]) (ha : neighbor g.size c.1 c.2 a = p)
    (hb : neighbor g.size c.1 c.2 b ≠ p) :
    stepN g p c = neighbor g.size c.1 c.2 b := by
  unfold stepN
  rw [hpair, find?_pair_neg (fun d => decide (neighbor g.size c.1 c.2 d ≠ p))
    a b (by simp [ha]) (decide_eq_true hb)]

/-- Visited flags after the walk has marked its first `m` cells. -/
def visUp (g : Grid) (s : Nat × Nat) (v0 : Nat → Nat → Bool) (m : Nat) :
    Nat → Nat → Bool :=
  fun c r => v0 c r || (List.range m).any fun k => decide (wtraj g s k = (c, r))

/-- The loop accumulator after the walk has recorded its first `m` cells. -/
def accUp (g : Grid) (s : Nat × Nat) (m : Nat) : List (Nat × Nat) :=
  (List.range m).map (wtraj g s)

theorem visUp_zero (g : Grid) (s : Nat × Nat) (v0 : Nat → Nat → Bool) :
    visUp g s v0 0 = v0 := by
  funext c r
  simp [visUp]

theorem visUp_succ (g : Grid) (s : Nat × Nat) (v0 : Nat → Nat → Bool) (m : Nat) :
    (fun c r => if c = (wtraj g s m).1 ∧ r = (wtraj g s m).2 then true
      else visUp g s v0 m c r) = visUp g s v0 (m + 1) := by
  funext c r
  have hexp : visUp g s v0 (m + 1) c r =
      (visUp g s v0 m c r || decide (wtraj g s m = (c, r))) := by
    unfold visUp
    rw [List.range_succ, List.any_append]
    simp [Bool.or_assoc]
  rw [hexp]
  by_cases h : c = (wtraj g s m).1 ∧ r = (wtraj g s m).2
  · rw [if_pos h]
    have heq : wtraj g s m = (c, r) := by
      rw [h.1, h.2]
    rw [decide_eq_true heq, Bool.or_true]
  · rw [if_neg h]
    have hne : wtraj g s m ≠ (c, r) := by
      intro heq
      exact h ⟨by rw [heq], by rw [heq]⟩
    rw [decide_eq_false hne, Bool.or_false]

theorem accUp_succ (g : Grid) (s : Nat × Nat) (m : Nat) :
    accUp g s m ++ [wtraj g s m] = accUp g s (m + 1) := by
  unfold accUp
  rw [List.range_succ, List.map_append]
  rfl

theorem accUp_length (g : Grid) (s : Nat × Nat) (m : Nat) :
    (accUp g s m).length = m := by
  simp [accUp]

theorem accUp_ne_nil (g : Grid) (s : Nat × Nat) (m : Nat) (hm : 1 ≤ m) :
    ¬ (accUp g s m).isEmpty = true := by
  intro h
  rw [List.isEmpty_iff] at h
  have := congrArg List.length h
  rw [accUp_length] at this
  simp at this
  omega

theorem visUp_mem (g : Grid) (s : Nat × Nat) (v0 : Nat → Nat → Bool)
    (k m : Nat) (hk : k < m) :
    visUp g s v0 m (wtraj g s k).1 (wtraj g s k).2 = true := by
  unfold visUp
  have hany : ((List.range m).any fun j =>
      decide (wtraj g s j = ((wtraj g s k).1, (wtraj g s k).2))) = true := by
    rw [List.any_eq_true]
    exact ⟨k, List.mem_range.mpr hk, decide_eq_true rfl⟩
  rw [hany, Bool.or_true]

theorem visUp_not_mem (g : Grid) (s : Nat × Nat) (v0 : Nat → Nat → Bool)
    (L : Nat)
    (hdis : ∀ k, k < L → v0 (wtraj g s k).1 (wtraj g s k).2 = false)
    (hinj : ∀ i, i < L → ∀ j, j < L → wtraj g s i = wtraj g s j → i = j)
    (m : Nat) (hm : m < L) :
    visUp g s v0 m (wtraj g s m).1 (wtraj g s m).2 = false := by
  unfold visUp
  rw [hdis m hm, Bool.false_or]
  cases hany : ((List.range m).any fun j =>
      decide (wtraj g s j = ((wtraj g s m).1, (wtraj g s m).2))) with
  | false => rfl
  | true =>
    exfalso
    obtain ⟨k, hkmem, hdec⟩ := List.any_eq_true.mp hany
    have hkm : k < m := List.mem_range.mp hkmem
    have heq : wtraj g s k = wtraj g s m := of_decide_eq_true hdec
    have := hinj k (by omega) m hm heq
    omega

end BabelSim
namespace BabelSim

/-- Running the numba walk from the `m`-th cell of a closing trajectory
finishes the loop: it marks the remaining cells and returns the full
loop `[w 0, …, w (L-1)]`. -/
theorem walkNumba_run (g : Grid) (he2 : g.size % 2 = 0) (h5 : 5 ≤ g.size)
    (hs : Symm g) (hd : Deg2 g) (s : Nat × Nat)
    (hs1 : s.1 < g.size) (hs2 : s.2 < g.size) (v0 : Nat → Nat → Bool)
    (L : Nat) (hL1 : 1 ≤ L) (hLs : wtraj g s L = s)
    (hinj : ∀ i, i < L → ∀ j, j < L → wtraj g s i = wtraj g s j → i = j)
    (hdis : ∀ k, k < L → v0 (wtraj g s k).1 (wtraj g s k).2 = false) :
    ∀ fuel m, m ≤ L → L + 1 ≤ fuel + m →
      walkNumba g s fuel (wtraj g s m)
        (if m = 0 then none else some (wtraj g s (m - 1)))
        (visUp g s v0 m) (accUp g s m) = (visUp g s v0 L, accUp g s L) := by
  have h3 : 3 ≤ g.size := by omega
  have hinr := wtraj_inr g h3 hd s hs1 hs2
  intro fuel
  induction fuel with
  | zero => intro m hm hf; omega
  | succ fuel ih =>
    intro m hm hf
    rcases Nat.eq_or_lt_of_le hm with hmL | hmL
    · subst hmL
      have hvis : visUp g s v0 m (wtraj g s m).1 (wtraj g s m).2 = true := by
        rw [hLs]
        exact visUp_mem g s v0 0 m (by omega)
      simp only [walkNumba]
      rw [if_pos hvis, if_pos ⟨hLs, accUp_ne_nil g s m hL1⟩]
    · have hvism := visUp_not_mem g s v0 L hdis hinj m hmL
      obtain ⟨a, b, hab, hpair⟩ :=
        doorsAt_two g hd (wtraj g s m).1 (wtraj g s m).2 (hinr m).1 (hinr m).2
      have hnanb : neighbor g.size (wtraj g s m).1 (wtraj g s m).2 a ≠
          neighbor g.size (wtraj g s m).1 (wtraj g s m).2 b :=
        fun h => hab (neighbor_dir_inj g.size h3 _ _ (hinr m).1 (hinr m).2 a b h)
      rcases m with _ | m'
      · show walkNumba g s (fuel + 1) (wtraj g s 0) none
            (visUp g s v0 0) (accUp g s 0) = (visUp g s v0 L, accUp g s L)
        have hstep1 : wtraj g s 1 =
            neighbor g.size (wtraj g s 0).1 (wtraj g s 0).2 a := by
          have h1 : wtraj g s 1 = stepN g (wtraj g s 0) (wtraj g s 0) :=
            wtraj_succ g s 0
          rw [h1]
          exact stepN_eq_fst g (wtraj g s 0) (wtraj g s 0) a b hpair
            (fun h => neighbor_ne_self g.size h3 _ _ (hinr 0).1 (hinr 0).2 a
              (by rw [h]))
        simp only [walkNumba]
        rw [if_neg (by rw [hvism]; exact Bool.false_ne_true)]
        rw [hpair]
        rw [if_neg (by rw [List.isEmpty_cons]; exact Bool.false_ne_true)]
        rw [backOk_none]
        rw [show List.find? (fun _ : Fin 6 => true) [a, b] = some a from rfl]
        show walkNumba g s fuel
            (neighbor g.size (wtraj g s 0).1 (wtraj g s 0).2 a)
            (some (wtraj g s 0))
            (fun c r => if c = (wtraj g s 0).1 ∧ r = (wtraj g s 0).2 then true
              else visUp g s v0 0 c r)
            (accUp g s 0 ++ [wtraj g s 0]) = (visUp g s v0 L, accUp g s L)
        rw [visUp_succ g s v0 0, accUp_succ g s 0, ← hstep1]
        exact ih 1 (by omega) (by omega)
      · show walkNumba g s (fuel + 1) (wtraj g s (m' + 1))
            (some (wtraj g s m'))
            (visUp g s v0 (m' + 1)) (accUp g s (m' + 1)) =
          (visUp g s v0 L, accUp g s L)
        have hw1 : wtraj g s (m' + 2) =
            stepN g (wtraj g s m') (wtraj g s (m' + 1)) := wtraj_succ g s (m' + 1)
        simp only [walkNumba]
        rw [if_neg (by rw [hvism]; exact Bool.false_ne_true)]
        rw [hpair]
        rw [if_neg (by rw [List.isEmpty_cons]; exact Bool.false_ne_true)]
        rw [backOk_some]
        by_cases hback :
            neighbor g.size (wtraj g s (m' + 1)).1 (wtraj g s (m' + 1)).2 a =
              wtraj g s m'
        · have hbne :
              neighbor g.size (wtraj g s (m' + 1)).1 (wtraj g s (m' + 1)).2 b ≠
                wtraj g s m' := by
            rw [← hback]
            exact fun h => hnanb h.symm
          rw [find?_pair_neg
            (fun d => decide (neighbor g.size (wtraj g s (m' + 1)).1
              (wtraj g s (m' + 1)).2 d ≠ wtraj g s m'))
            a b (by simp [hback]) (decide_eq_true hbne)]
          show walkNumba g s fuel
              (neighbor g.size (wtraj g s (m' + 1)).1 (wtraj g s (m' + 1)).2 b)
              (some (wtraj g s (m' + 1)))
              (fun c r => if c = (wtraj g s (m' + 1)).1 ∧
                  r = (wtraj g s (m' + 1)).2 then true
                else visUp g s v0 (m' + 1) c r)
              (accUp g s (m' + 1) ++ [wtraj g s (m' + 1)]) =
            (visUp g s v0 L, accUp g s L)
          rw [visUp_succ g s v0 (m' + 1), accUp_succ g s (m' + 1)]
          have hw2 : wtraj g s (m' + 2) =
              neighbor g.size (wtraj g s (m' + 1)).1 (wtraj g s (m' + 1)).2 b := by
            rw [hw1]
            exact stepN_eq_snd g (wtraj g s m') (wtraj g s (m' + 1)) a b hpair
              hback hbne
          rw [← hw2]
          exact ih (m' + 2) (by omega) (by omega)
        · rw [find?_pair_pos
            (fun d => decide (neighbor g.size (wtraj g s (m' + 1)).1
              (wtraj g s (m' + 1)).2 d ≠ wtraj g s m'))
            a b (decide_eq_true hback)]
          show walkNumba g s fuel
              (neighbor g.size (wtraj g s (m' + 1)).1 (wtraj g s (m' + 1)).2 a)
              (some (wtraj g s (m' + 1)))
              (fun c r => if c = (wtraj g s (m' + 1)).1 ∧
                  r = (wtraj g s (m' + 1)).2 then true
                else visUp g s v0 (m' + 1) c r)
              (accUp g s (m' + 1) ++ [wtraj g s (m' + 1)]) =
            (visUp g s v0 L, accUp g s L)
          rw [visUp_succ g s v0 (m' + 1), accUp_succ g s (m' + 1)]
          have hw2 : wtraj g s (m' + 2) =
              neighbor g.size (wtraj g s (m' + 1)).1 (wtraj g s (m' + 1)).2 a := by
            rw [hw1]
            exact stepN_eq_fst g (wtraj g s m') (wtraj g s (m' + 1)) a b hpair
              hback
          rw [← hw2]
          exact ih (m' + 2) (by omega) (by omega)

end BabelSim
namespace BabelSim

/-- The Python fallback walk follows exactly the same trajectory: on a
degree-2 symmetric lattice `doors[0]`-unless-backtrack-else-`doors[1]`
chooses the same door as the numba first-non-backtrack scan, and the
closed walk ends by revisiting its start, which the fallback also
keeps. -/
theorem walkPy_run (g : Grid) (he2 : g.size % 2 = 0) (h5 : 5 ≤ g.size)
    (hs : Symm g) (hd : Deg2 g) (s : Nat × Nat)
    (hs1 : s.1 < g.size) (hs2 : s.2 < g.size) (v0 : Nat → Nat → Bool)
    (L : Nat) (hL1 : 1 ≤ L) (hLs : wtraj g s L = s)
    (hinj : ∀ i, i < L → ∀ j, j < L → wtraj g s i = wtraj g s j → i = j)
    (hdis : ∀ k, k < L → v0 (wtraj g s k).1 (wtraj g s k).2 = false) :
    ∀ fuel m, m ≤ L → L + 1 ≤ fuel + m →
      walkPy g fuel (wtraj g s m)
        (if m = 0 then none else some (wtraj g s (m - 1)))
        (visUp g s v0 m) (accUp g s m) = (visUp g s v0 L, accUp g s L) := by
  have h3 : 3 ≤ g.size := by omega
  have hinr := wtraj_inr g h3 hd s hs1 hs2
  intro fuel
  induction fuel with
  | zero => intro m hm hf; omega
  | succ fuel ih =>
    intro m hm hf
    rcases Nat.eq_or_lt_of_le hm with hmL | hmL
    · subst hmL
      have hvis : visUp g s v0 m (wtraj g s m).1 (wtraj g s m).2 = true := by
        rw [hLs]
        exact visUp_mem g s v0 0 m (by omega)
      simp only [walkPy]
      rw [if_pos hvis]
    · have hvism := visUp_not_mem g s v0 L hdis hinj m hmL
      obtain ⟨a, b, hab, hpair⟩ :=
        doorsAt_two g hd (wtraj g s m).1 (wtraj g s m).2 (hinr m).1 (hinr m).2
      have hnanb : neighbor g.size (wtraj g s m).1 (wtraj g s m).2 a ≠
          neighbor g.size (wtraj g s m).1 (wtraj g s m).2 b :=
        fun h => hab (neighbor_dir_inj g.size h3 _ _ (hinr m).1 (hinr m).2 a b h)
      rcases m with _ | m'
      · show walkPy g (fuel + 1) (wtraj g s 0) none
            (visUp g s v0 0) (accUp g s 0) = (visUp g s v0 L, accUp g s L)
        have hstep1 : wtraj g s 1 =
            neighbor g.size (wtraj g s 0).1 (wtraj g s 0).2 a := by
          have h1 : wtraj g s 1 = stepN g (wtraj g s 0) (wtraj g s 0) :=
            wtraj_succ g s 0
          rw [h1]
          exact stepN_eq_fst g (wtraj g s 0) (wtraj g s 0) a b hpair
            (fun h => neighbor_ne_self g.size h3 _ _ (hinr 0).1 (hinr 0).2 a
              (by rw [h]))
        simp only [walkPy]
        rw [if_neg (by rw [hvism]; exact Bool.false_ne_true)]
        rw [hpair]
        rw [if_neg (by rw [List.isEmpty_cons]; exact Bool.false_ne_true)]
        show walkPy g fuel
            (neighbor g.size (wtraj g s 0).1 (wtraj g s 0).2 ([a, b].headD 0))
            (some (wtraj g s 0))
            (fun c r => if c = (wtraj g s 0).1 ∧ r = (wtraj g s 0).2 then true
              else visUp g s v0 0 c r)
            (accUp g s 0 ++ [wtraj g s 0]) = (visUp g s v0 L, accUp g s L)
        rw [show ([a, b].headD (0 : Fin 6)) = a from rfl]
        rw [visUp_succ g s v0 0, accUp_succ g s 0, ← hstep1]
        exact ih 1 (by omega) (by omega)
      · show walkPy g (fuel + 1) (wtraj g s (m' + 1))
            (some (wtraj g s m'))
            (visUp g s v0 (m' + 1)) (accUp g s (m' + 1)) =
          (visUp g s v0 L, accUp g s L)
        have hw1 : wtraj g s (m' + 2) =
            stepN g (wtraj g s m') (wtraj g s (m' + 1)) := wtraj_succ g s (m' + 1)
        simp only [walkPy]
        rw [if_neg (by rw [hvism]; exact Bool.false_ne_true)]
        rw [hpair]
        rw [if_neg (by rw [List.isEmpty_cons]; exact Bool.false_ne_true)]
        rw [show ([a, b].headD (0 : Fin 6)) = a from rfl]
        by_cases hback :
            neighbor g.size (wtraj g s (m' + 1)).1 (wtraj g s (m' + 1)).2 a =
              wtraj g s m'
        · have hbne :
              neighbor g.size (wtraj g s (m' + 1)).1 (wtraj g s (m' + 1)).2 b ≠
                wtraj g s m' := by
            rw [← hback]
            exact fun h => hnanb h.symm
          rw [if_pos hback]
          rw [if_pos (by simp)]
          rw [show ([a, b].getD 1 (0 : Fin 6)) = b from rfl]
          rw [visUp_succ g s v0 (m' + 1), accUp_succ g s (m' + 1)]
          have hw2 : wtraj g s (m' + 2) =
              neighbor g.size (wtraj g s (m' + 1)).1 (wtraj g s (m' + 1)).2 b := by
            rw [hw1]
            exact stepN_eq_snd g (wtraj g s m') (wtraj g s (m' + 1)) a b hpair
              hback hbne
          rw [← hw2]
          exact ih (m' + 2) (by omega) (by omega)
        · rw [if_neg hback]
          rw [visUp_succ g s v0 (m' + 1), accUp_succ g s (m' + 1)]
          have hw2 : wtraj g s (m' + 2) =
              neighbor g.size (wtraj g s (m' + 1)).1 (wtraj g s (m' + 1)).2 a := by
            rw [hw1]
            exact stepN_eq_fst g (wtraj g s m') (wtraj g s (m' + 1)) a b hpair
              hback
          rw [← hw2]
          exact ih (m' + 2) (by omega) (by omega)

end BabelSim
namespace BabelSim

/-- One step of the `_find_loops_numba` outer scan (the body of its
`start_c`/`start_r` double loop), as folded by `findLoopsNumba`. -/
def loopStep (g : Grid) (st : (Nat → Nat → Bool) × List (List (Nat × Nat)))
    (s : Nat × Nat) : (Nat → Nat → Bool) × List (List (Nat × Nat)) :=
  if st.1 s.1 s.2 then st
  else
    let res := walkNumba g s (g.size * g.size + 1) s none st.1 []
    (res.1, if res.2.isEmpty then st.2 else st.2 ++ [res.2])

/-- One step of the Python fallback's outer scan. -/
def loopStepPy (g : Grid) (st : (Nat → Nat → Bool) × List (List (Nat × Nat)))
    (s : Nat × Nat) : (Nat → Nat → Bool) × List (List (Nat × Nat)) :=
  if st.1 s.1 s.2 then st
  else
    let res := walkPy g (g.size * g.size + 1) s none st.1 []
    (res.1, if res.2.isEmpty then st.2 else st.2 ++ [res.2])

theorem findLoopsNumba_eq (g : Grid) :
    findLoopsNumba g =
      ((((List.range g.size).map fun c =>
          (List.range g.size).map fun r => (c, r)).flatten).foldl
        (loopStep g) ((fun _ _ => false), [])).2 := rfl

theorem findLoopsPy_eq (g : Grid) :
    findLoopsPy g =
      ((((List.range g.size).map fun c =>
          (List.range g.size).map fun r => (c, r)).flatten).foldl
        (loopStepPy g) ((fun _ _ => false), [])).2 := rfl

/-- Invariant of the outer scan: the visited flags are exactly the
cells already emitted in some loop, no cell is emitted twice, and the
emitted region is closed under doors. -/
def CoverInv (g : Grid) (st : (Nat → Nat → Bool) × List (List (Nat × Nat))) : Prop :=
  (∀ c r : Nat, st.1 c r = true ↔ (c, r) ∈ st.2.flatten) ∧
  st.2.flatten.Nodup ∧
  ∀ x y : Nat × Nat, st.1 x.1 x.2 = true → Edge g x y → st.1 y.1 y.2 = true

theorem visUp_iff (g : Grid) (s : Nat × Nat) (v0 : Nat → Nat → Bool)
    (m : Nat) (c r : Nat) :
    visUp g s v0 m c r = true ↔
      v0 c r = true ∨ ∃ k, k < m ∧ wtraj g s k = (c, r) := by
  simp [visUp, List.any_eq_true, List.mem_range]

theorem accUp_mem (g : Grid) (s : Nat × Nat) (m : Nat) (x : Nat × Nat) :
    x ∈ accUp g s m ↔ ∃ k, k < m ∧ wtraj g s k = x := by
  simp [accUp, List.mem_map, List.mem_range]

theorem loopStep_spec (g : Grid) (he2 : g.size % 2 = 0) (h5 : 5 ≤ g.size)
    (hs : Symm g) (hd : Deg2 g)
    (st : (Nat → Nat → Bool) × List (List (Nat × Nat)))
    (hinv : CoverInv g st) (s : Nat × Nat)
    (hin1 : s.1 < g.size) (hin2 : s.2 < g.size) :
    CoverInv g (loopStep g st s) ∧ (loopStep g st s).1 s.1 s.2 = true ∧
      (∀ c r, st.1 c r = true → (loopStep g st s).1 c r = true) ∧
      loopStepPy g st s = loopStep g st s := by
  by_cases hv : st.1 s.1 s.2 = true
  · have h1 : loopStep g st s = st := by
      unfold loopStep
      rw [if_pos hv]
    have h2 : loopStepPy g st s = st := by
      unfold loopStepPy
      rw [if_pos hv]
    rw [h1, h2]
    exact ⟨hinv, hv, fun c r h => h, rfl⟩
  · have hvf : st.1 s.1 s.2 = false := by
      cases h : st.1 s.1 s.2 with
      | false => rfl
      | true => exact absurd h hv
    obtain ⟨L, hL1, hLle, hLs, hinj⟩ := traj_closes g he2 h5 hs hd s hin1 hin2
    have h3 : 3 ≤ g.size := by omega
    have hinr := wtraj_inr g h3 hd s hin1 hin2
    have hdis : ∀ k, k < L → st.1 (wtraj g s k).1 (wtraj g s k).2 = false := by
      intro k
      induction k with
      | zero => intro _; exact hvf
      | succ k ihk =>
        intro hk
        have hkL : k < L := by omega
        have hk0 := ihk hkL
        cases hflag : st.1 (wtraj g s (k + 1)).1 (wtraj g s (k + 1)).2 with
        | false => rfl
        | true =>
          exfalso
          have hedge : Edge g (wtraj g s (k + 1)) (wtraj g s k) :=
            edge_symm g he2 (by omega) hs _ _ (hinr k).1 (hinr k).2
              (traj_edge g h3 hd s hin1 hin2 k)
          have hcl := hinv.2.2 (wtraj g s (k + 1)) (wtraj g s k) hflag hedge
          rw [hk0] at hcl
          exact Bool.false_ne_true hcl
    have hrun := walkNumba_run g he2 h5 hs hd s hin1 hin2 st.1 L hL1 hLs hinj hdis
      (g.size * g.size + 1) 0 (by omega) (by omega)
    have hrunPy := walkPy_run g he2 h5 hs hd s hin1 hin2 st.1 L hL1 hLs hinj hdis
      (g.size * g.size + 1) 0 (by omega) (by omega)
    rw [visUp_zero g s st.1] at hrun hrunPy
    have heq : walkNumba g s (g.size * g.size + 1) s none st.1 [] =
        (visUp g s st.1 L, accUp g s L) := hrun
    have heqPy : walkPy g (g.size * g.size + 1) s none st.1 [] =
        (visUp g s st.1 L, accUp g s L) := hrunPy
    have hres : loopStep g st s = (visUp g s st.1 L, st.2 ++ [accUp g s L]) := by
      unfold loopStep
      rw [if_neg hv]
      show ((walkNumba g s (g.size * g.size + 1) s none st.1 []).1,
        if (walkNumba g s (g.size * g.size + 1) s none st.1 []).2.isEmpty then st.2
        else st.2 ++ [(walkNumba g s (g.size * g.size + 1) s none st.1 []).2]) = _
      rw [heq]
      show (visUp g s st.1 L,
        if (accUp g s L).isEmpty = true then st.2 else st.2 ++ [accUp g s L]) = _
      rw [if_neg (accUp_ne_nil g s L hL1)]
    have hresPy : loopStepPy g st s = (visUp g s st.1 L, st.2 ++ [accUp g s L]) := by
      unfold loopStepPy
      rw [if_neg hv]
      show ((walkPy g (g.size * g.size + 1) s none st.1 []).1,
        if (walkPy g (g.size * g.size + 1) s none st.1 []).2.isEmpty then st.2
        else st.2 ++ [(walkPy g (g.size * g.size + 1) s none st.1 []).2]) = _
      rw [heqPy]
      show (visUp g s st.1 L,
        if (accUp g s L).isEmpty = true then st.2 else st.2 ++ [accUp g s L]) = _
      rw [if_neg (accUp_ne_nil g s L hL1)]
    have hflatten : (st.2 ++ [accUp g s L]).flatten = st.2.flatten ++ accUp g s L := by
      rw [List.flatten_append]
      simp
    have hA : ∀ c r : Nat, visUp g s st.1 L c r = true ↔
        (c, r) ∈ (st.2 ++ [accUp g s L]).flatten := by
      intro c r
      rw [visUp_iff, hflatten, List.mem_append, accUp_mem]
      rw [hinv.1 c r]
    have hB : (st.2 ++ [accUp g s L]).flatten.Nodup := by
      rw [hflatten]
      rw [List.nodup_append]
      refine ⟨hinv.2.1, ?_, ?_⟩
      · exact List.Nodup.map_on
          (fun i hi j hj hij => hinj i (List.mem_range.mp hi) j
            (List.mem_range.mp hj) hij) (List.nodup_range L)
      · intro x hx hx2
        obtain ⟨k, hk, hwk⟩ := (accUp_mem g s L x).mp hx2
        have hflag : st.1 x.1 x.2 = true := (hinv.1 x.1 x.2).mpr (by
          rw [show ((x.1 : Nat), (x.2 : Nat)) = x from rfl]
          exact hx)
        rw [← hwk] at hflag
        rw [hdis k hk] at hflag
        exact Bool.false_ne_true hflag
    have hD : ∀ x y : Nat × Nat, visUp g s st.1 L x.1 x.2 = true → Edge g x y →
        visUp g s st.1 L y.1 y.2 = true := by
      intro x y hx hxy
      rcases (visUp_iff g s st.1 L x.1 x.2).mp hx with hold | ⟨k, hk, hwk⟩
      · have := hinv.2.2 x y hold hxy
        exact (visUp_iff g s st.1 L y.1 y.2).mpr (Or.inl this)
      · have hxeq : wtraj g s k = x := by
          rw [hwk]
        obtain ⟨j, hj, hwj⟩ := orbit_closed g he2 h5 hs hd s hin1 hin2 L hL1 hLs
          hinj k hk y (by rw [hxeq]; exact hxy)
        refine (visUp_iff g s st.1 L y.1 y.2).mpr (Or.inr ⟨j, hj, ?_⟩)
        rw [hwj]
    refine ⟨?_, ?_, ?_, ?_⟩
    · rw [hres]
      exact ⟨hA, hB, hD⟩
    · rw [hres]
      refine (visUp_iff g s st.1 L s.1 s.2).mpr (Or.inr ⟨0, by omega, ?_⟩)
      rfl
    · intro c r h
      rw [hres]
      exact (visUp_iff g s st.1 L c r).mpr (Or.inl h)
    · rw [hres, hresPy]

theorem foldl_cover (g : Grid) (he2 : g.size % 2 = 0) (h5 : 5 ≤ g.size)
    (hs : Symm g) (hd : Deg2 g) :
    ∀ (l : List (Nat × Nat)) st, CoverInv g st →
      (∀ x ∈ l, x.1 < g.size ∧ x.2 < g.size) →
      CoverInv g (l.foldl (loopStep g) st) ∧
      (∀ x ∈ l, (l.foldl (loopStep g) st).1 x.1 x.2 = true) ∧
      (∀ c r, st.1 c r = true → (l.foldl (loopStep g) st).1 c r = true) ∧
      l.foldl (loopStepPy g) st = l.foldl (loopStep g) st := by
  intro l
  induction l with
  | nil =>
    intro st hinv hl
    exact ⟨hinv, by simp, fun c r h => h, rfl⟩
  | cons s l ih =>
    intro st hinv hl
    have hsin := hl s (by simp)
    have hstep := loopStep_spec g he2 h5 hs hd st hinv s hsin.1 hsin.2
    have hih := ih (loopStep g st s) hstep.1 (fun x hx => hl x (by simp [hx]))
    simp only [List.foldl_cons]
    refine ⟨hih.1, ?_, ?_, ?_⟩
    · intro x hx
      rcases List.mem_cons.mp hx with rfl | hx2
      · exact hih.2.2.1 _ _ hstep.2.1
      · exact hih.2.1 x hx2
    · intro c r h
      exact hih.2.2.1 c r (hstep.2.2.1 c r h)
    · rw [hstep.2.2.2]
      exact hih.2.2.2

theorem starts_mem (size : Nat) (x : Nat × Nat) :
    x ∈ (((List.range size).map fun c =>
        (List.range size).map fun r => (c, r)).flatten) ↔
      x.1 < size ∧ x.2 < size := by
  constructor
  · intro hx
    obtain ⟨l, hl, hxl⟩ := List.mem_flatten.mp hx
    obtain ⟨c, hc, rfl⟩ := List.mem_map.mp hl
    obtain ⟨r, hr, rfl⟩ := List.mem_map.mp hxl
    exact ⟨List.mem_range.mp hc, List.mem_range.mp hr⟩
  · rintro ⟨h1, h2⟩
    refine List.mem_flatten.mpr ⟨(List.range size).map fun r => (x.1, r), ?_, ?_⟩
    · exact List.mem_map.mpr ⟨x.1, List.mem_range.mpr h1, rfl⟩
    · exact List.mem_map.mpr ⟨x.2, List.mem_range.mpr h2, rfl⟩

theorem coverInv_init (g : Grid) :
    CoverInv g ((fun _ _ => false), ([] : List (List (Nat × Nat)))) := by
  refine ⟨?_, by simp, ?_⟩
  · intro c r
    simp
  · intro x y h
    exact absurd h (by simp)

end BabelSim
namespace BabelSim

/-- A size-6 state in which every cell has exactly two doors (popcount
2 everywhere) but the door relation is not symmetric: cell `(0,0)`
holds `{NE, SE}` while all others hold `{N, S}`. -/
def skewGrid : Grid :=
  ⟨6, fun c r => if c = 0 ∧ r = 0 then (1 <<< 1) ||| (1 <<< 2)
    else (1 <<< 0) ||| (1 <<< 3)⟩

/-- C4, counterexample: degree 2 alone does not give a cycle cover.
In `skewGrid` every cell has exactly two doors, yet `_find_loops_numba`
drops cell `(0,0)` entirely (its walk merges into a previously emitted
loop and is discarded with `loop_len = 0`). -/
theorem count_le_one_of_nodup {α : Type} [BEq α] [LawfulBEq α] (l : List α)
    (h : l.Nodup) (a : α) : l.count a ≤ 1 := by
  induction l with
  | nil => simp
  | cons x l ih =>
    rw [List.count_cons]
    rw [List.nodup_cons] at h
    by_cases hax : a = x
    · subst hax
      have h0 : l.count a = 0 := List.count_eq_zero_of_not_mem h.1
      simp [h0]
    · have hax2 : (x == a) = false := by
        cases hb : (x == a) with
        | false => rfl
        | true => exact absurd (eq_of_beq hb).symm hax
      rw [hax2]
      simpa using ih h.2

theorem c4_cycle_cover_counterexample :
    Deg2 skewGrid ∧ skewGrid.size = 6 ∧
      ((findLoopsNumba skewGrid).flatten).count (0, 0) = 0 := by
  refine ⟨by unfold Deg2; decide, rfl, by decide⟩

/-- C4, amended: on an even size of at least 5 and a state that also
satisfies the door-symmetry invariant, `_find_loops_numba` emits loops
whose concatenation contains every in-range cell exactly once. -/
theorem c4_cycle_cover (g : Grid) (heven : g.size % 2 = 0) (h5 : 5 ≤ g.size)
    (hs : Symm g) (hd : Deg2 g) :
    ∀ c, c < g.size → ∀ r, r < g.size →
      ((findLoopsNumba g).flatten).count (c, r) = 1 := by
  intro c hc r hr
  have hfold := foldl_cover g heven h5 hs hd
    (((List.range g.size).map fun c =>
      (List.range g.size).map fun r => (c, r)).flatten)
    ((fun _ _ => false), []) (coverInv_init g)
    (fun x hx => (starts_mem g.size x).mp hx)
  have hflag := hfold.2.1 (c, r) ((starts_mem g.size (c, r)).mpr ⟨hc, hr⟩)
  have hmem : (c, r) ∈ ((findLoopsNumba g).flatten) := by
    rw [findLoopsNumba_eq]
    exact (hfold.1.1 c r).mp hflag
  have hnodup : ((findLoopsNumba g).flatten).Nodup := by
    rw [findLoopsNumba_eq]
    exact hfold.1.2.1
  have h1 : 0 < ((findLoopsNumba g).flatten).count (c, r) :=
    List.count_pos_iff.mpr hmem
  have h2 := count_le_one_of_nodup ((findLoopsNumba g).flatten) hnodup (c, r)
  omega

/-- Witness for C4: the freshly reset size-6 vertical lattice, where
cell `(0,0)` is covered exactly once. -/
theorem c4_cycle_cover_witness :
    (resetToOrganized 6 "vertical").size % 2 = 0 ∧
      5 ≤ (resetToOrganized 6 "vertical").size ∧
      Symm (resetToOrganized 6 "vertical") ∧
      Deg2 (resetToOrganized 6 "vertical") ∧
      ((findLoopsNumba (resetToOrganized 6 "vertical")).flatten).count (0, 0) = 1 := by
  have hsize := size_resetToOrganized 6 "vertical"
  have hinv := reset_inv 6 rfl (by omega) "vertical"
  refine ⟨by rw [hsize], by rw [hsize]; omega, hinv.2.1, hinv.2.2, ?_⟩
  exact c4_cycle_cover (resetToOrganized 6 "vertical") (by rw [hsize])
    (by rw [hsize]; omega) hinv.2.1 hinv.2.2 0 (by rw [hsize]; omega)
    0 (by rw [hsize]; omega)

/-- The all-walls size-5 state: every cell has an empty door mask. -/
def emptyGrid : Grid := ⟨5, fun _ _ => 0⟩

/-- C8, counterexample: the two extractors disagree on a state where a
walk dies without closing.  With no doors anywhere, the numba routine
discards every walk (`loop_len = 0` on the no-doors break) and returns
no loops, while the Python fallback keeps every partial walk and
returns 25 singleton loops. -/
theorem c8_fallback_equiv_counterexample :
    findLoopsNumba emptyGrid = [] ∧ (findLoopsPy emptyGrid).length = 25 ∧
      findLoopsNumba emptyGrid ≠ findLoopsPy emptyGrid := by
  refine ⟨by decide, by decide, by decide⟩

/-- C8, amended: on an even size of at least 5 and a state satisfying
the symmetry and degree-2 invariants, the numba routine and the Python
fallback return the same loops, in the same order, with the same cell
order inside each loop. -/
theorem c8_fallback_equiv (g : Grid) (heven : g.size % 2 = 0) (h5 : 5 ≤ g.size)
    (hs : Symm g) (hd : Deg2 g) :
    findLoopsNumba g = findLoopsPy g := by
  have hfold := foldl_cover g heven h5 hs hd
    (((List.range g.size).map fun c =>
      (List.range g.size).map fun r => (c, r)).flatten)
    ((fun _ _ => false), []) (coverInv_init g)
    (fun x hx => (starts_mem g.size x).mp hx)
  rw [findLoopsNumba_eq, findLoopsPy_eq, hfold.2.2.2]

/-- Witness for C8: both extractors agree on the size-6 vertical reset. -/
theorem c8_fallback_equiv_witness :
    (resetToOrganized 6 "vertical").size % 2 = 0 ∧
      5 ≤ (resetToOrganized 6 "vertical").size ∧
      Symm (resetToOrganized 6 "vertical") ∧
      Deg2 (resetToOrganized 6 "vertical") ∧
      findLoopsNumba (resetToOrganized 6 "vertical") =
        findLoopsPy (resetToOrganized 6 "vertical") := by
  have hsize := size_resetToOrganized 6 "vertical"
  have hinv := reset_inv 6 rfl (by omega) "vertical"
  exact ⟨by rw [hsize], by rw [hsize]; omega, hinv.2.1, hinv.2.2,
    c8_fallback_equiv (resetToOrganized 6 "vertical") (by rw [hsize])
      (by rw [hsize]; omega) hinv.2.1 hinv.2.2⟩

end BabelSim
